import Mathlib

/-!
# Verification of the WebRTC signalling service

Shallow embedding of `server/src/services/webrtcService.js`: the two module-level
maps `rooms` and `userSockets`, the Socket.IO event handlers registered in
`initializeSocketIO`, `handleUserLeaveRoom`, and the administrative functions
`getActiveRooms`, `getRoomDetails` and `disconnectUserFromRoom`.

The Socket.IO server itself is a library; the part of its behaviour the service
relies on is embedded as follows (Socket.IO v4, in-memory adapter):

* every connection has a unique string id and, on connection, is placed in the
  adapter room named by its own id;
* `socket.join(r)` / `socket.leave(r)` add / remove the connection to / from the
  adapter room `r` (any room, the own-id room included);
* `io.to(r).emit(..)` delivers one event to every connection in adapter room `r`;
* `socket.to(r).emit(..)` delivers one event to every connection in adapter room
  `r` except the connections in the adapter room named `socket.id`;
* `socket.emit(..)` delivers one event to that connection;
* when the `disconnect` listeners run, the connection has already left all adapter
  rooms and is no longer in `io.sockets.sockets`; ids are never reused.
-/

namespace WebRTC

/-! ## JavaScript values and `Map` -/

/-- The scalar values a payload field can hold.  A field that is absent from a
payload destructures to `undef`.  Payloads the service never inspects (session
descriptions, ICE candidates) are carried as one such value.  `num n` stands for
the number `n` where `n` is a safe integer (magnitude at most `2 ^ 53`); other
numbers are not represented. -/
inductive Val where
  | undef
  | null
  | bool (b : Bool)
  | num (n : Int)
  | str (s : String)
deriving DecidableEq, Repr

/-- JavaScript truthiness, as used by `if (socket.userId)`. -/
def Val.truthy : Val → Bool
  | .undef => false
  | .null => false
  | .bool b => b
  | .num n => n != 0
  | .str s => s != ""

/-- String conversion performed by a template literal.  It is exact for `undefined`,
`null`, booleans, strings and the safe integers, which print as their decimal
digits; JavaScript prints larger numbers differently (shortest round-trip digits,
exponent form from `1e21` on), so statements that depend on the printed form of a
number are made for string arguments only. -/
def Val.toJsString : Val → String
  | .undef => "undefined"
  | .null => "null"
  | .bool true => "true"
  | .bool false => "false"
  | .num n => toString n
  | .str s => s

/-- `Map.prototype.get` on a map kept as its entry list in insertion order. -/
def mapGet {κ ν : Type} [DecidableEq κ] : List (κ × ν) → κ → Option ν
  | [], _ => none
  | (k', v) :: rest, k => if k' = k then some v else mapGet rest k

/-- `Map.prototype.has`. -/
def mapHas {κ ν : Type} [DecidableEq κ] (m : List (κ × ν)) (k : κ) : Bool :=
  (mapGet m k).isSome

/-- `Map.prototype.set`: an existing key keeps its position, a new key is appended. -/
def mapSet {κ ν : Type} [DecidableEq κ] : List (κ × ν) → κ → ν → List (κ × ν)
  | [], k, v => [(k, v)]
  | (k', v') :: rest, k, v =>
    if k' = k then (k, v) :: rest else (k', v') :: mapSet rest k v

/-- `Map.prototype.delete`. -/
def mapDelete {κ ν : Type} [DecidableEq κ] (m : List (κ × ν)) (k : κ) : List (κ × ν) :=
  m.filter (fun e => decide (e.1 ≠ k))

/-- `Map.prototype.keys`, as a list. -/
def mapKeys {κ ν : Type} (m : List (κ × ν)) : List κ := m.map (fun e => e.1)

/-- `Map.prototype.values`, as a list. -/
def mapValues {κ ν : Type} (m : List (κ × ν)) : List ν := m.map (fun e => e.2)

/-! ## Data model -/

/-- The object stored by `room.participants.set(socket.id, ..)`.  `props` holds the
properties added later by `participant[mediaType + "Enabled"] = enabled`; such a
property name always ends in `Enabled`, so it never names one of the five fields
written by `room:join`. -/
structure Participant where
  userId : Val
  userName : Val
  isDoctor : Val
  socketId : String
  joinedAt : Nat
  props : List (String × Val)
deriving DecidableEq, Repr

/-- An entry of the `rooms` map. -/
structure Room where
  id : Val
  participants : List (String × Participant)
  createdAt : Nat
  status : String
deriving DecidableEq, Repr

/-- A live Socket.IO connection: its id, the `userId` / `userName` properties the
service attaches in `user:join`, and the adapter rooms it is in. -/
structure Socket where
  id : String
  userId : Val
  userName : Val
  rooms : List Val
deriving DecidableEq, Repr

/-- Outbound events with their payloads. -/
inductive Msg where
  | usersOnline (userIds : List Val)
  | userJoined (userId userName isDoctor : Val) (socketId : String) (participantCount : Nat)
  | roomJoined (roomId : Val) (participants : List Participant) (participantCount : Nat)
  | roomStatus (status : String)
  | webrtcOffer (offer : Val) (senderSocketId : String) (senderUserId senderUserName : Val)
  | webrtcAnswer (answer : Val) (senderSocketId : String)
  | webrtcIceCandidate (candidate : Val) (senderSocketId : String)
  | mediaToggled (userId mediaType enabled : Val)
  | chatMessage (message senderName senderId : Val) (timestamp : Nat)
  | userLeft (userId userName : Val) (participantCount : Nat)
  | roomKicked (reason : String)
  | error (message : String)
deriving DecidableEq, Repr

/-- One event handed to one connection. -/
abbrev Delivery := String × Msg

/-- The module state (`rooms`, `userSockets`) together with the Socket.IO server
state: the live connections and the ids of connections that have disconnected. -/
structure State where
  rooms : List (Val × Room)
  userSockets : List (Val × String)
  sockets : List Socket
  closed : List String
deriving DecidableEq, Repr

/-- The state at module load: both maps empty, no connection yet. -/
def State.empty : State := ⟨[], [], [], []⟩

/-! ## Socket.IO primitives -/

/-- `io.sockets.sockets.get(id)`. -/
def findSocket (s : State) (h : String) : Option Socket :=
  s.sockets.find? (fun c => decide (c.id = h))

/-- Whether `h` is the id of a live connection. -/
def isLive (s : State) (h : String) : Bool := (findSocket s h).isSome

/-- Apply `f` to the connection with id `h`. -/
def updSocket (s : State) (h : String) (f : Socket → Socket) : State :=
  { s with sockets := s.sockets.map (fun c => if c.id = h then f c else c) }

/-- `socket.join(room)`. -/
def socketJoin (s : State) (h : String) (room : Val) : State :=
  updSocket s h (fun c => if room ∈ c.rooms then c else { c with rooms := c.rooms ++ [room] })

/-- `socket.leave(room)`. -/
def socketLeave (s : State) (h : String) (room : Val) : State :=
  updSocket s h (fun c => { c with rooms := c.rooms.filter (fun r => decide (r ≠ room)) })

/-- Ids of the connections in adapter room `room`. -/
def inRoom (s : State) (room : Val) : List String :=
  (s.sockets.filter (fun c => decide (room ∈ c.rooms))).map (fun c => c.id)

/-- `io.to(room).emit(msg)`. -/
def ioTo (s : State) (room : Val) (msg : Msg) : List Delivery :=
  (inRoom s room).map (fun h => (h, msg))

/-- `socket.to(room).emit(msg)` for the connection with id `sender`. -/
def socketTo (s : State) (sender : String) (room : Val) (msg : Msg) : List Delivery :=
  ((inRoom s room).filter (fun h => decide (h ∉ inRoom s (.str sender)))).map (fun h => (h, msg))

/-- `socket.emit(msg)`. -/
def socketEmit (s : State) (h : String) (msg : Msg) : List Delivery :=
  if isLive s h then [(h, msg)] else []

/-! ## Event handlers -/

/-- Handler of `user:join`. -/
def userJoin (s : State) (h : String) (userId userName : Val) : State × List Delivery :=
  let s1 := updSocket s h (fun c => { c with userId := userId, userName := userName })
  let s2 := { s1 with userSockets := mapSet s1.userSockets userId h }
  (s2, socketEmit s2 h (.usersOnline (mapKeys s2.userSockets)))

/-- The room object created by `room:join` for an unseen `roomId`. -/
def newRoom (roomId : Val) (now : Nat) : Room :=
  { id := roomId, participants := [], createdAt := now, status := "waiting" }

/-- Body of the `room:join` handler, entered once the parameter pattern
`{ roomId, userId, userName, isDoctor }` has read the four properties of a payload
object (an absent property reads as `undef`).  For such a payload no statement of
the `try` block throws, so the `catch` branch (the only place an `error` event is
emitted) is not taken.  An event without a payload object never enters this body:
see `onRoomJoin`. -/
def roomJoin (now : Nat) (s : State) (h : String) (roomId userId userName isDoctor : Val) :
    State × List Delivery :=
  let s1 := socketJoin s h roomId
  let rooms1 :=
    if mapHas s1.rooms roomId then s1.rooms else mapSet s1.rooms roomId (newRoom roomId now)
  let room := (mapGet rooms1 roomId).getD (newRoom roomId now)
  let parts := mapSet room.participants h
    { userId := userId, userName := userName, isDoctor := isDoctor, socketId := h,
      joinedAt := now, props := [] }
  let out1 := socketTo s1 h roomId (.userJoined userId userName isDoctor h parts.length)
  let others := (mapValues parts).filter (fun p => decide (p.socketId ≠ h))
  let out2 := socketEmit s1 h (.roomJoined roomId others parts.length)
  let room1 := { room with participants := parts }
  if parts.length ≥ 2 then
    let room2 := { room1 with status := "active" }
    ({ s1 with rooms := mapSet rooms1 roomId room2 },
      out1 ++ out2 ++ ioTo s1 roomId (.roomStatus "active"))
  else
    ({ s1 with rooms := mapSet rooms1 roomId room1 }, out1 ++ out2)

/-- Handlers of `webrtc:offer`, `webrtc:answer` and `webrtc:ice-candidate`: the
state is untouched, the event goes to `io.to(targetSocketId)`. -/
def webrtcOffer (s : State) (c : Socket) (offer target : Val) : List Delivery :=
  ioTo s target (.webrtcOffer offer c.id c.userId c.userName)

/-- Handler of `webrtc:answer`. -/
def webrtcAnswer (s : State) (c : Socket) (answer target : Val) : List Delivery :=
  ioTo s target (.webrtcAnswer answer c.id)

/-- Handler of `webrtc:ice-candidate`. -/
def webrtcIceCandidate (s : State) (c : Socket) (candidate target : Val) : List Delivery :=
  ioTo s target (.webrtcIceCandidate candidate c.id)

/-- Handler of `media:toggle`. -/
def mediaToggle (s : State) (c : Socket) (roomId mediaType enabled : Val) :
    State × List Delivery :=
  match mapGet s.rooms roomId with
  | none => (s, [])
  | some room =>
    match mapGet room.participants c.id with
    | none => (s, [])
    | some participant =>
      let participant1 :=
        { participant with
          props := mapSet participant.props (mediaType.toJsString ++ "Enabled") enabled }
      let room1 := { room with participants := mapSet room.participants c.id participant1 }
      ({ s with rooms := mapSet s.rooms roomId room1 },
        socketTo s c.id roomId (.mediaToggled c.userId mediaType enabled))

/-- Handler of `chat:message`; `now` is the coordinator clock. -/
def chatMessage (now : Nat) (s : State) (c : Socket) (roomId message senderName : Val) :
    List Delivery :=
  ioTo s roomId (.chatMessage message senderName c.userId now)

/-- The function `handleUserLeaveRoom(socket, roomId)`; `h` is `socket.id`. -/
def handleUserLeaveRoom (s : State) (h : String) (roomId : Val) : State × List Delivery :=
  match mapGet s.rooms roomId with
  | none => (s, [])
  | some room =>
    match mapGet room.participants h with
    | none => (s, [])
    | some participant =>
      let parts := mapDelete room.participants h
      let out1 := socketTo s h roomId
        (.userLeft participant.userId participant.userName parts.length)
      let s1 := socketLeave s h roomId
      if parts.length = 0 then
        ({ s1 with rooms := mapDelete s1.rooms roomId }, out1)
      else
        let status := if parts.length ≥ 2 then "active" else "waiting"
        let room1 := { room with participants := parts, status := status }
        ({ s1 with rooms := mapSet s1.rooms roomId room1 },
          out1 ++ ioTo s1 roomId (.roomStatus status))

/-- The loop `rooms.forEach(..)` of the `disconnect` handler over the room ids
`keys`: an entry deleted earlier in the iteration is not visited. -/
def leaveAll (h : String) : List Val → State → State × List Delivery
  | [], s => (s, [])
  | roomId :: keys, s =>
    match mapGet s.rooms roomId with
    | none => leaveAll h keys s
    | some room =>
      if mapHas room.participants h then
        let r := handleUserLeaveRoom s h roomId
        let r2 := leaveAll h keys r.1
        (r2.1, r.2 ++ r2.2)
      else leaveAll h keys s

/-- Handler of `disconnect` for the connection `c`, which Socket.IO has already
taken out of its adapter rooms and out of `io.sockets.sockets`. -/
def disconnect (s : State) (c : Socket) : State × List Delivery :=
  let s0 := { s with sockets := s.sockets.filter (fun d => decide (d.id ≠ c.id)),
                     closed := c.id :: s.closed }
  let s1 :=
    if c.userId.truthy then { s0 with userSockets := mapDelete s0.userSockets c.userId } else s0
  leaveAll c.id (mapKeys s1.rooms) s1

/-- Rows returned by `getActiveRooms`. -/
structure RoomSummary where
  id : Val
  participantCount : Nat
  status : String
  createdAt : Nat
deriving DecidableEq, Repr

/-- The function `getActiveRooms()`. -/
def getActiveRooms (s : State) : List RoomSummary :=
  s.rooms.map (fun e =>
    { id := e.1, participantCount := e.2.participants.length, status := e.2.status,
      createdAt := e.2.createdAt })

/-- Object returned by `getRoomDetails`. -/
structure RoomDetails where
  id : Val
  participants : List Participant
  participantCount : Nat
  status : String
  createdAt : Nat
deriving DecidableEq, Repr

/-- The function `getRoomDetails(roomId)`; `none` is `null`. -/
def getRoomDetails (s : State) (roomId : Val) : Option RoomDetails :=
  match mapGet s.rooms roomId with
  | none => none
  | some room =>
    some { id := roomId, participants := mapValues room.participants,
           participantCount := room.participants.length, status := room.status,
           createdAt := room.createdAt }

/-- The `for .. of room.participants.entries()` loop of `disconnectUserFromRoom`
over the remaining entries; the result is the returned boolean, the state and the
events emitted. -/
def kickLoop (s : State) (roomId userId : Val) (room : Room) :
    List (String × Participant) → Bool × State × List Delivery
  | [] => (false, s, [])
  | (socketId, participant) :: rest =>
    if participant.userId = userId then
      match findSocket s socketId with
      | some _ =>
        let s1 := socketLeave s socketId roomId
        let room1 := { room with participants := mapDelete room.participants socketId }
        (true, { s1 with rooms := mapSet s1.rooms roomId room1 },
          socketEmit s socketId (.roomKicked "Disconnected by admin"))
      | none => kickLoop s roomId userId room rest
    else kickLoop s roomId userId room rest

/-- The function `disconnectUserFromRoom(roomId, userId)`. -/
def disconnectUserFromRoom (s : State) (roomId userId : Val) : Bool × State × List Delivery :=
  match mapGet s.rooms roomId with
  | none => (false, s, [])
  | some room => kickLoop s roomId userId room room.participants

/-! ## The service as a transition system -/

/-- What can happen to the service: a new connection, an inbound socket event of a
connection `h` with the fields its handler destructures from the payload object,
its transport disconnect, or an administrative kick. -/
inductive Event where
  | connect (h : String)
  | userJoin (h : String) (userId userName : Val)
  | roomJoin (h : String) (roomId userId userName isDoctor : Val)
  | webrtcOffer (h : String) (offer roomId target : Val)
  | webrtcAnswer (h : String) (answer target : Val)
  | webrtcIceCandidate (h : String) (candidate target : Val)
  | mediaToggle (h : String) (roomId mediaType enabled : Val)
  | chatMessage (h : String) (roomId message senderName : Val)
  | roomLeave (h : String) (roomId : Val)
  | disconnect (h : String)
  | kick (roomId userId : Val)
deriving DecidableEq, Repr

/-- Run the handler of an event of connection `h`; a connection that is not live
issues no event. -/
def onSocket (s : State) (h : String) (f : Socket → State × List Delivery) :
    State × List Delivery :=
  match findSocket s h with
  | none => (s, [])
  | some c => f c

/-- One transition at coordinator time `now`: the new state and the deliveries. -/
def step (now : Nat) (s : State) : Event → State × List Delivery
  | .connect h =>
    if isLive s h || decide (h ∈ s.closed) then (s, [])
    else ({ s with sockets := s.sockets ++
              [{ id := h, userId := .undef, userName := .undef, rooms := [.str h] }] }, [])
  | .userJoin h userId userName => onSocket s h (fun _ => userJoin s h userId userName)
  | .roomJoin h roomId userId userName isDoctor =>
    onSocket s h (fun _ => roomJoin now s h roomId userId userName isDoctor)
  | .webrtcOffer h offer _ target => onSocket s h (fun c => (s, webrtcOffer s c offer target))
  | .webrtcAnswer h answer target => onSocket s h (fun c => (s, webrtcAnswer s c answer target))
  | .webrtcIceCandidate h candidate target =>
    onSocket s h (fun c => (s, webrtcIceCandidate s c candidate target))
  | .mediaToggle h roomId mediaType enabled =>
    onSocket s h (fun c => mediaToggle s c roomId mediaType enabled)
  | .chatMessage h roomId message senderName =>
    onSocket s h (fun c => (s, chatMessage now s c roomId message senderName))
  | .roomLeave h roomId => onSocket s h (fun _ => handleUserLeaveRoom s h roomId)
  | .disconnect h => onSocket s h (fun c => disconnect s c)
  | .kick roomId userId =>
    let r := disconnectUserFromRoom s roomId userId
    (r.2.1, r.2.2)

/-- Run a timed trace of events, collecting the deliveries. -/
def run : State → List (Nat × Event) → State × List Delivery
  | s, [] => (s, [])
  | s, (now, e) :: rest =>
    let r := step now s e
    let r2 := run r.1 rest
    (r2.1, r.2 ++ r2.2)

/-- States the service can be in: those obtained from the state at module load by
finitely many transitions. -/
inductive Reachable : State → Prop where
  | empty : Reachable State.empty
  | step {s : State} (hs : Reachable s) (now : Nat) (e : Event) : Reachable (step now s e).1

/-! ## Derived notions used in the statements -/

/-- Ids of the live connections. -/
def socketIds (s : State) : List String := s.sockets.map (fun c => c.id)

/-- The room object `room:join` leaves in the store when connection `h` joins a
room whose object was `base` (the stored one, or the fresh one). -/
def joinedRoom (now : Nat) (base : Room) (h : String) (userId userName isDoctor : Val) : Room :=
  let parts := mapSet base.participants h
    { userId := userId, userName := userName, isDoctor := isDoctor, socketId := h,
      joinedAt := now, props := [] }
  { base with participants := parts,
              status := if parts.length ≥ 2 then "active" else base.status }

/-- The room object `handleUserLeaveRoom` leaves in the store for a room whose
object was `room` when connection `h` leaves it: `none` when the room is deleted. -/
def leftRoom (h : String) (room : Room) : Option Room :=
  if mapHas room.participants h then
    let parts := mapDelete room.participants h
    if parts.length = 0 then none
    else some { room with participants := parts,
                          status := if parts.length ≥ 2 then "active" else "waiting" }
  else some room

/-- Well-formedness of a room store relative to the ids `ids`: room ids are
distinct, and in every room the participant keys are distinct and among `ids`. -/
def RoomsWF (rooms : List (Val × Room)) (ids : List String) : Prop :=
  (mapKeys rooms).Nodup ∧
  ∀ r room, mapGet rooms r = some room →
    (mapKeys room.participants).Nodup ∧ ∀ h ∈ mapKeys room.participants, h ∈ ids

/-- Well-formedness of a state: the room store is well-formed relative to the live
connections, connection ids are distinct, and no live id is recorded as closed. -/
structure Inv (s : State) : Prop where
  rooms : RoomsWF s.rooms (socketIds s)
  socketsNodup : (socketIds s).Nodup
  liveNotClosed : ∀ h ∈ socketIds s, h ∉ s.closed

/-- A `room:join` (with its payload) or `room:leave` issued by connection `h` on
one fixed room. -/
inductive RoomOp where
  | join (h : String) (userId userName isDoctor : Val)
  | leave (h : String)
deriving DecidableEq, Repr

/-- The connection that issues the operation. -/
def RoomOp.handle : RoomOp → String
  | .join h _ _ _ => h
  | .leave h => h

/-- Whether the operation is a join. -/
def RoomOp.isJoin : RoomOp → Bool
  | .join _ _ _ _ => true
  | .leave _ => false

/-- The socket event of the operation on room `r`. -/
def RoomOp.toEvent (r : Val) : RoomOp → Event
  | .join h userId userName isDoctor => .roomJoin h r userId userName isDoctor
  | .leave h => .roomLeave h r

/-- The timed trace of a sequence of operations on room `r`. -/
def roomTrace (r : Val) (ops : List (Nat × RoomOp)) : List (Nat × Event) :=
  ops.map (fun o => (o.1, o.2.toEvent r))

/-- Whether the most recent operation of connection `h` in `ops` is a join. -/
def lastIsJoin (ops : List (Nat × RoomOp)) (h : String) : Bool :=
  match ops.reverse.find? (fun o => decide (o.2.handle = h)) with
  | some o => o.2.isJoin
  | none => false

/-- The set of connection handles whose most recent operation in `ops` is a join. -/
def joinedSet (ops : List (Nat × RoomOp)) : Finset String :=
  (ops.map (fun o => o.2.handle)).toFinset.filter (fun h => lastIsJoin ops h = true)

/-- The relation between the stored object of room `r` and the operations applied
to it so far. -/
def RoomTracks (o : Option Room) (ops : List (Nat × RoomOp)) : Prop :=
  match o with
  | none => ∀ h, lastIsJoin ops h = false
  | some room =>
    (mapKeys room.participants).Nodup ∧ mapKeys room.participants ≠ [] ∧
    ∀ h, h ∈ mapKeys room.participants ↔ lastIsJoin ops h = true

/-- Two joins and a leave on one room by connections `a` and `b`. -/
def joinJoinLeaveOps : List (Nat × RoomOp) :=
  [(1, .join "a" (.str "u1") (.str "Ann") (.bool false)),
   (2, .join "b" (.str "u2") (.str "Bob") (.bool true)),
   (3, .leave "a")]

/-- Connections `a` and `b` join room `r1` and an administrator kicks both users;
`c` is connected but has joined nothing. -/
def kickBothTrace : List (Nat × Event) :=
  [(0, .connect "a"), (0, .connect "b"), (0, .connect "c"),
   (1, .roomJoin "a" (.str "r1") (.str "u1") (.str "Ann") (.bool false)),
   (2, .roomJoin "b" (.str "r1") (.str "u2") (.str "Bob") (.bool true)),
   (3, .kick (.str "r1") (.str "u1")),
   (4, .kick (.str "r1") (.str "u2"))]

/-- Connections `a` and `b` are both in room `r1`, and `b` has also joined a call
room whose `roomId` is the handle of `a`. -/
def namesakeRoomTrace : List (Nat × Event) :=
  [(0, .connect "a"), (0, .connect "b"),
   (1, .roomJoin "a" (.str "r1") (.str "u1") (.str "Ann") (.bool false)),
   (2, .roomJoin "b" (.str "r1") (.str "u2") (.str "Bob") (.bool true)),
   (3, .roomJoin "b" (.str "a") (.str "u2") (.str "Bob") (.bool true))]

/-- Connection `a` is alone in room `r1`; connection `b` is open and has joined
nothing. -/
def outsiderTrace : List (Nat × Event) :=
  [(0, .connect "a"), (0, .connect "b"),
   (1, .roomJoin "a" (.str "r1") (.str "u1") (.str "Ann") (.bool false))]

/-- Connection `a` registers user `x`, connection `b` registers the same user,
then `a` disconnects. -/
def supersedeThenCloseTrace : List (Nat × Event) :=
  [(0, .connect "a"), (0, .connect "b"),
   (1, .userJoin "a" (.str "x") (.str "Xavier")),
   (2, .userJoin "b" (.str "x") (.str "Xavier")),
   (3, .disconnect "a")]

/-- Consistency of one room object: every entry is keyed by its own `socketId`,
and a room with two or more participants has status `active`. -/
def RoomOk (room : Room) : Prop :=
  (∀ e ∈ room.participants, e.2.socketId = e.1) ∧
  (room.participants.length ≥ 2 → room.status = "active")

/-- Further well-formedness of a state: user ids are registered once, every stored
room is consistent, and every participant of a room is in the Socket.IO room of
the same name. -/
structure Inv2 (s : State) : Prop where
  registryNodup : (mapKeys s.userSockets).Nodup
  roomOk : ∀ r room, mapGet s.rooms r = some room → RoomOk room
  inAdapterRoom : ∀ r room, mapGet s.rooms r = some room →
    ∀ k ∈ mapKeys room.participants, k ∈ inRoom s r

/-- Whether a delivery carries a `room:joined` event. -/
def isRoomJoined (d : Delivery) : Bool :=
  match d.2 with
  | .roomJoined _ _ _ => true
  | _ => false

/-- An inbound payload object as the list of its own properties. -/
abbrev Payload := List (String × Val)

/-- Reading a property of a payload by destructuring: `undefined` when absent. -/
def Payload.field (p : Payload) (name : String) : Val :=
  match mapGet p name with
  | none => Val.undef
  | some v => v

/-- The `chat:message` listener applied to a raw payload `p` of connection `h`: its
parameter pattern reads the properties `roomId`, `message` and `senderName` and
nothing else. -/
def onChatMessage (now : Nat) (s : State) (h : String) (p : Payload) : State × List Delivery :=
  step now s (.chatMessage h (p.field "roomId") (p.field "message") (p.field "senderName"))

/-- The `room:join` listener applied to the raw argument of the event.  `none` is an
event without a payload object (`undefined` or `null`): the parameter pattern
`{ roomId, userId, userName, isDoctor }` then throws a `TypeError` before the `try`
block is entered, so nothing is stored, nothing is emitted and the `catch` branch
does not run.  For a payload object the four properties are read, an absent one as
`undefined`, and the handler body runs. -/
def onRoomJoin (now : Nat) (s : State) (h : String) :
    Option Payload → Except String (State × List Delivery)
  | none => .error "TypeError"
  | some p =>
    .ok (step now s (.roomJoin h (p.field "roomId") (p.field "userId") (p.field "userName")
      (p.field "isDoctor")))

/-- A `room:join` payload object without the property `roomId`. -/
def joinPayloadWithoutRoomId : Payload :=
  [("userId", .str "u1"), ("userName", .str "Ann"), ("isDoctor", .bool false)]

/-- A `chat:message` payload that also carries a client-side timestamp and sender id. -/
def chatPayloadWithExtras : Payload :=
  [("roomId", .str "r1"), ("message", .str "hello"), ("senderName", .str "Ann"),
   ("timestamp", .str "1999-01-01T00:00:00.000Z"), ("senderId", .str "someone-else")]

/-- The same `chat:message` payload without the extra properties. -/
def chatPayloadPlain : Payload :=
  [("roomId", .str "r1"), ("message", .str "hello"), ("senderName", .str "Ann")]

/-- Connections `a` and `b` join room `r1` as users `u1` and `u2`; neither has sent
`user:join`. -/
def unregisteredPairTrace : List (Nat × Event) :=
  [(0, .connect "a"), (0, .connect "b"),
   (1, .roomJoin "a" (.str "r1") (.str "u1") (.str "Ann") (.bool false)),
   (2, .roomJoin "b" (.str "r1") (.str "u2") (.str "Bob") (.bool true))]

/-- Connection `a` registers user id `x`, then user id `y`, then disconnects. -/
def twoIdsThenCloseTrace : List (Nat × Event) :=
  [(0, .connect "a"),
   (1, .userJoin "a" (.str "x") (.str "Xavier")),
   (2, .userJoin "a" (.str "y") (.str "Yann")),
   (3, .disconnect "a")]

/-- Connection `a` registers the user id `0`, then disconnects. -/
def falsyIdThenCloseTrace : List (Nat × Event) :=
  [(0, .connect "a"),
   (1, .userJoin "a" (.num 0) (.str "Zed")),
   (2, .disconnect "a")]

/-- Whether a delivery carries a `media:toggled` event. -/
def isMediaToggled (d : Delivery) : Bool :=
  match d.2 with
  | .mediaToggled _ _ _ => true
  | _ => false

/-- Whether an event is an administrative call rather than a socket event. -/
def Event.isAdmin : Event → Bool
  | .kick _ _ => true
  | _ => false

/-- States obtained from the state at module load by socket events only (new
connections, inbound events, transport disconnects), without any call of
`disconnectUserFromRoom`. -/
inductive SocketReachable : State → Prop where
  | empty : SocketReachable State.empty
  | step {s : State} (hs : SocketReachable s) (now : Nat) (e : Event)
      (he : e.isAdmin = false) : SocketReachable (step now s e).1

/-- A room has at least one participant and its status is the one its participant
count calls for. -/
def RoomStatusOk (room : Room) : Prop :=
  room.participants.length ≥ 1 ∧
  room.status = if room.participants.length ≥ 2 then "active" else "waiting"

/-- Connection `a` joins room `r1`, connection `b` joins it, then `a` leaves. -/
def joinJoinLeaveTrace : List (Nat × Event) :=
  [(0, .connect "a"), (0, .connect "b"),
   (1, .roomJoin "a" (.str "r1") (.str "u1") (.str "Ann") (.bool false)),
   (2, .roomJoin "b" (.str "r1") (.str "u2") (.str "Bob") (.bool true)),
   (3, .roomLeave "a" (.str "r1"))]

/-- The participant entry of connection `h` in room `r`, if any. -/
def entryOf (s : State) (r : Val) (h : String) : Option Participant :=
  (mapGet s.rooms r).bind (fun room => mapGet room.participants h)

/-- The value of the property `flag` of the entry of `h` in room `r`; `none` when
the property (or the entry) does not exist, which JavaScript reads as `undefined`. -/
def flagOf (s : State) (r : Val) (h : String) (flag : String) : Option Val :=
  (entryOf s r h).bind (fun p => mapGet p.props flag)

/-! ## Concrete scenarios -/

/-- Connection `a` joins room `r1` as user `u1`, then an administrator kicks `u1`. -/
def kickLastTrace : List (Nat × Event) :=
  [(0, .connect "a"),
   (1, .roomJoin "a" (.str "r1") (.str "u1") (.str "Ann") (.bool false)),
   (2, .kick (.str "r1") (.str "u1"))]

/-- Connections `a` and `b` join room `r1` as users `u1` and `u2`, then an
administrator kicks `u2`. -/
def kickOneOfTwoTrace : List (Nat × Event) :=
  [(0, .connect "a"), (0, .connect "b"),
   (1, .roomJoin "a" (.str "r1") (.str "u1") (.str "Ann") (.bool false)),
   (2, .roomJoin "b" (.str "r1") (.str "u2") (.str "Bob") (.bool true)),
   (3, .kick (.str "r1") (.str "u2"))]

/-- Connection `a` registers user `x`, then connection `b` registers the same user. -/
def supersedeTrace : List (Nat × Event) :=
  [(0, .connect "a"), (0, .connect "b"),
   (1, .userJoin "a" (.str "x") (.str "Xavier")),
   (2, .userJoin "b" (.str "x") (.str "Xavier"))]

/-- Connections `a`, `b`, `c` are open and `c` joins a call room whose `roomId` is
the handle of `b`. -/
def eavesdropTrace : List (Nat × Event) :=
  [(0, .connect "a"), (0, .connect "b"), (0, .connect "c"),
   (1, .roomJoin "c" (.str "b") (.str "u3") (.str "Carl") (.bool false))]

/-- Connection `a` registers user `u1`; connection `b` joins and then leaves a call
room whose `roomId` is its own handle. -/
def ownRoomTrace : List (Nat × Event) :=
  [(0, .connect "a"), (0, .connect "b"),
   (1, .userJoin "a" (.str "u1") (.str "Ann")),
   (2, .roomJoin "b" (.str "b") (.str "u2") (.str "Bob") (.bool false)),
   (3, .roomLeave "b" (.str "b"))]

/-- Connections `a` and `b` both join room `r1` under the same user id `u`. -/
def twoDevicesTrace : List (Nat × Event) :=
  [(0, .connect "a"), (0, .connect "b"),
   (1, .roomJoin "a" (.str "r1") (.str "u") (.str "Uma") (.bool false)),
   (2, .roomJoin "b" (.str "r1") (.str "u") (.str "Uma") (.bool false))]

/-- Whether a delivery carries an `error` event. -/
def isErrorDelivery (d : Delivery) : Bool :=
  match d.2 with
  | .error _ => true
  | _ => false

/-! ## Facts about the `Map` embedding -/

section MapLemmas

variable {κ ν : Type} [DecidableEq κ]

theorem mapGet_mapSet_self (m : List (κ × ν)) (k : κ) (v : ν) :
    mapGet (mapSet m k v) k = some v := by
  induction m with
  | nil => simp [mapSet, mapGet]
  | cons e rest ih =>
    obtain ⟨k', v'⟩ := e
    by_cases hk : k' = k
    · simp [mapSet, mapGet, hk]
    · simp [mapSet, mapGet, hk, ih]

theorem mapGet_mapSet_of_ne (m : List (κ × ν)) {k k' : κ} (v : ν) (hne : k' ≠ k) :
    mapGet (mapSet m k v) k' = mapGet m k' := by
  induction m with
  | nil =>
    have : ¬ k = k' := fun h => hne h.symm
    simp [mapSet, mapGet, this]
  | cons e rest ih =>
    obtain ⟨k0, v0⟩ := e
    by_cases hk : k0 = k
    · subst hk
      have : ¬ k0 = k' := fun h => hne h.symm
      simp [mapSet, mapGet, this]
    · by_cases hk2 : k0 = k'
      · subst hk2
        simp [mapSet, mapGet, hk]
      · simp [mapSet, mapGet, hk, hk2, ih]

theorem mapGet_mapDelete_self (m : List (κ × ν)) (k : κ) :
    mapGet (mapDelete m k) k = none := by
  induction m with
  | nil => simp [mapDelete, mapGet]
  | cons e rest ih =>
    obtain ⟨k0, v0⟩ := e
    by_cases hk : k0 = k
    · simpa [mapDelete, List.filter_cons, hk] using ih
    · simpa [mapDelete, List.filter_cons, hk, mapGet] using ih

theorem mapGet_mapDelete_of_ne (m : List (κ × ν)) {k k' : κ} (hne : k' ≠ k) :
    mapGet (mapDelete m k) k' = mapGet m k' := by
  induction m with
  | nil => simp [mapDelete, mapGet]
  | cons e rest ih =>
    obtain ⟨k0, v0⟩ := e
    by_cases hk : k0 = k
    · subst hk
      have h2 : ¬ k0 = k' := fun h => hne h.symm
      simpa [mapDelete, List.filter_cons, mapGet, h2] using ih
    · by_cases hk2 : k0 = k'
      · subst hk2
        simp [mapDelete, List.filter_cons, hk, mapGet]
      · simpa [mapDelete, List.filter_cons, hk, mapGet, hk2] using ih

theorem mapGet_isSome_iff (m : List (κ × ν)) (k : κ) :
    (mapGet m k).isSome = true ↔ k ∈ mapKeys m := by
  induction m with
  | nil => simp [mapGet, mapKeys]
  | cons e rest ih =>
    obtain ⟨k0, v0⟩ := e
    by_cases hk : k0 = k
    · simp [mapGet, mapKeys, hk]
    · have hk2 : ¬ k = k0 := fun h => hk h.symm
      simpa [mapGet, mapKeys, hk, hk2] using ih

theorem mapGet_eq_none_iff (m : List (κ × ν)) (k : κ) :
    mapGet m k = none ↔ k ∉ mapKeys m := by
  rw [← mapGet_isSome_iff]
  cases mapGet m k <;> simp

theorem mapHas_iff (m : List (κ × ν)) (k : κ) : mapHas m k = true ↔ k ∈ mapKeys m :=
  mapGet_isSome_iff m k

theorem mem_of_mapGet {m : List (κ × ν)} {k : κ} {v : ν} (h : mapGet m k = some v) :
    (k, v) ∈ m := by
  induction m with
  | nil => simp [mapGet] at h
  | cons e rest ih =>
    obtain ⟨k0, v0⟩ := e
    by_cases hk : k0 = k
    · simp [mapGet, hk] at h
      simp [hk, h]
    · simp [mapGet, hk] at h
      exact List.mem_cons_of_mem _ (ih h)

theorem mapGet_of_mem {m : List (κ × ν)} {k : κ} {v : ν} (hnd : (mapKeys m).Nodup)
    (h : (k, v) ∈ m) : mapGet m k = some v := by
  induction m with
  | nil => simp at h
  | cons e rest ih =>
    obtain ⟨k0, v0⟩ := e
    simp only [mapKeys, List.map_cons, List.nodup_cons] at hnd
    rcases List.mem_cons.mp h with heq | hmem
    · cases heq
      simp [mapGet]
    · have hk : k0 ≠ k := by
        intro hk
        apply hnd.1
        rw [hk]
        exact List.mem_map.mpr ⟨(k, v), hmem, rfl⟩
      simp only [mapGet, hk, if_false]
      exact ih hnd.2 hmem

theorem mem_mapKeys_mapSet (m : List (κ × ν)) (k x : κ) (v : ν) :
    x ∈ mapKeys (mapSet m k v) ↔ x = k ∨ x ∈ mapKeys m := by
  induction m with
  | nil => simp [mapSet, mapKeys]
  | cons e rest ih =>
    obtain ⟨k0, v0⟩ := e
    by_cases hk : k0 = k
    · subst hk
      simp [mapSet, mapKeys]
    · simp only [mapSet, hk, if_false, mapKeys, List.map_cons, List.mem_cons]
      simp only [mapKeys] at ih
      rw [ih]
      tauto

theorem mem_mapKeys_mapDelete (m : List (κ × ν)) (k x : κ) :
    x ∈ mapKeys (mapDelete m k) ↔ x ≠ k ∧ x ∈ mapKeys m := by
  simp only [mapKeys, mapDelete, List.mem_map, List.mem_filter]
  constructor
  · rintro ⟨e, ⟨he, hne⟩, rfl⟩
    exact ⟨by simpa using hne, e, he, rfl⟩
  · rintro ⟨hne, e, he, rfl⟩
    exact ⟨e, ⟨he, by simpa using hne⟩, rfl⟩

theorem nodup_mapKeys_mapSet {m : List (κ × ν)} (k : κ) (v : ν) (hnd : (mapKeys m).Nodup) :
    (mapKeys (mapSet m k v)).Nodup := by
  induction m with
  | nil => simp [mapSet, mapKeys]
  | cons e rest ih =>
    obtain ⟨k0, v0⟩ := e
    simp only [mapKeys, List.map_cons, List.nodup_cons] at hnd
    by_cases hk : k0 = k
    · subst hk
      simp only [mapSet, if_true, mapKeys, List.map_cons, List.nodup_cons]
      exact hnd
    · simp only [mapSet, hk, if_false, mapKeys, List.map_cons, List.nodup_cons]
      refine ⟨?_, ih hnd.2⟩
      intro hmem
      have := (mem_mapKeys_mapSet rest k k0 v).mp hmem
      rcases this with h1 | h1
      · exact hk h1
      · exact hnd.1 h1

theorem nodup_mapKeys_mapDelete {m : List (κ × ν)} (k : κ) (hnd : (mapKeys m).Nodup) :
    (mapKeys (mapDelete m k)).Nodup := by
  induction m with
  | nil => simp [mapDelete, mapKeys]
  | cons e rest ih =>
    obtain ⟨k0, v0⟩ := e
    simp only [mapKeys, List.map_cons, List.nodup_cons] at hnd
    by_cases hk : k0 = k
    · simpa [mapDelete, List.filter_cons, hk] using ih hnd.2
    · have h1 : mapDelete ((k0, v0) :: rest) k = (k0, v0) :: mapDelete rest k := by
        simp [mapDelete, List.filter_cons, hk]
      rw [h1]
      simp only [mapKeys, List.map_cons, List.nodup_cons]
      refine ⟨?_, ih hnd.2⟩
      intro hmem
      exact hnd.1 ((mem_mapKeys_mapDelete rest k k0).mp hmem).2

theorem length_mapSet (m : List (κ × ν)) (k : κ) (v : ν) :
    (mapSet m k v).length = if k ∈ mapKeys m then m.length else m.length + 1 := by
  induction m with
  | nil => simp [mapSet, mapKeys]
  | cons e rest ih =>
    obtain ⟨k0, v0⟩ := e
    by_cases hk : k0 = k
    · subst hk
      simp [mapSet, mapKeys]
    · have hk2 : ¬ k = k0 := fun h => hk h.symm
      simp only [mapSet, hk, if_false, List.length_cons, ih, mapKeys, List.map_cons,
        List.mem_cons, hk2, false_or]
      split <;> rfl

theorem length_mapDelete_of_not_mem {m : List (κ × ν)} {k : κ} (h : k ∉ mapKeys m) :
    mapDelete m k = m := by
  simp only [mapDelete, List.filter_eq_self]
  intro e he
  have : e.1 ≠ k := by
    intro heq
    exact h (heq ▸ List.mem_map.mpr ⟨e, he, rfl⟩)
  simpa using this

theorem length_mapDelete {m : List (κ × ν)} {k : κ} (hnd : (mapKeys m).Nodup)
    (h : k ∈ mapKeys m) : (mapDelete m k).length + 1 = m.length := by
  induction m with
  | nil => simp [mapKeys] at h
  | cons e rest ih =>
    obtain ⟨k0, v0⟩ := e
    simp only [mapKeys, List.map_cons, List.nodup_cons] at hnd
    by_cases hk : k0 = k
    · subst hk
      have h1 : mapDelete ((k0, v0) :: rest) k0 = mapDelete rest k0 := by
        simp [mapDelete, List.filter_cons]
      rw [h1, length_mapDelete_of_not_mem hnd.1]
      simp
    · have h1 : mapDelete ((k0, v0) :: rest) k = (k0, v0) :: mapDelete rest k := by
        simp [mapDelete, List.filter_cons, hk]
      have h2 : k ∈ mapKeys rest := by
        simp only [mapKeys, List.map_cons, List.mem_cons] at h
        rcases h with h | h
        · exact absurd h.symm hk
        · exact h
      rw [h1]
      simp only [List.length_cons]
      rw [ih hnd.2 h2]

end MapLemmas

theorem mapSet_mapSet_self {κ ν : Type} [DecidableEq κ] (m : List (κ × ν)) (k : κ) (v v' : ν) :
    mapSet (mapSet m k v) k v' = mapSet m k v' := by
  induction m with
  | nil => simp [mapSet]
  | cons e rest ih =>
    obtain ⟨k0, v0⟩ := e
    by_cases hk : k0 = k
    · simp [mapSet, hk]
    · simp [mapSet, hk, ih]

theorem isLive_iff (s : State) (h : String) : isLive s h = true ↔ h ∈ socketIds s := by
  simp only [isLive, findSocket, socketIds, List.find?_isSome, List.mem_map, decide_eq_true_eq]

theorem findSocket_id {s : State} {h : String} {c : Socket} (hc : findSocket s h = some c) :
    c.id = h := by
  have := List.find?_some hc
  simpa using this

theorem isLive_of_findSocket {s : State} {h : String} {c : Socket}
    (hc : findSocket s h = some c) : isLive s h = true := by
  simp [isLive, hc]

theorem socketIds_updSocket (s : State) (h : String) (f : Socket → Socket)
    (hf : ∀ c, (f c).id = c.id) : socketIds (updSocket s h f) = socketIds s := by
  simp only [socketIds, updSocket, List.map_map]
  apply List.map_congr_left
  intro c _
  simp only [Function.comp]
  split
  · exact hf c
  · rfl

theorem socketIds_socketJoin (s : State) (h : String) (r : Val) :
    socketIds (socketJoin s h r) = socketIds s := by
  apply socketIds_updSocket
  intro c
  split <;> rfl

theorem socketIds_socketLeave (s : State) (h : String) (r : Val) :
    socketIds (socketLeave s h r) = socketIds s := by
  apply socketIds_updSocket
  intro c
  rfl

theorem roomJoin_rooms (now : Nat) (s : State) (h : String) (r u n d : Val) :
    (roomJoin now s h r u n d).1.rooms
      = mapSet s.rooms r (joinedRoom now ((mapGet s.rooms r).getD (newRoom r now)) h u n d) := by
  unfold roomJoin
  simp only [socketJoin, updSocket, mapHas, joinedRoom]
  cases hg : mapGet s.rooms r with
  | none =>
    simp only [Option.isSome_none, Bool.false_eq_true, if_false, mapGet_mapSet_self,
      Option.getD_some, Option.getD_none]
    split <;> simp [mapSet_mapSet_self, *]
  | some room =>
    simp only [Option.isSome_some, if_true, hg, Option.getD_some]
    split <;> simp [*]

theorem onSocket_live {s : State} {h : String} (hl : isLive s h = true)
    (f : Socket → State × List Delivery) :
    ∃ c, findSocket s h = some c ∧ c.id = h ∧ onSocket s h f = f c := by
  unfold isLive at hl
  cases hc : findSocket s h with
  | none => simp [hc] at hl
  | some c => exact ⟨c, rfl, findSocket_id hc, by simp [onSocket, hc]⟩

theorem onSocket_not_live {s : State} {h : String} (hl : isLive s h = false)
    (f : Socket → State × List Delivery) : onSocket s h f = (s, []) := by
  unfold isLive at hl
  cases hc : findSocket s h with
  | none => simp [onSocket, hc]
  | some c => simp [hc] at hl

theorem step_roomJoin_live {s : State} {h : String} (hl : isLive s h = true) (now : Nat)
    (r u n d : Val) : step now s (.roomJoin h r u n d) = roomJoin now s h r u n d := by
  obtain ⟨c, _, _, hc⟩ := onSocket_live hl (fun _ => roomJoin now s h r u n d)
  simpa [step] using hc

theorem step_roomLeave_live {s : State} {h : String} (hl : isLive s h = true) (now : Nat)
    (r : Val) : step now s (.roomLeave h r) = handleUserLeaveRoom s h r := by
  obtain ⟨c, _, _, hc⟩ := onSocket_live hl (fun _ => handleUserLeaveRoom s h r)
  simpa [step] using hc

theorem isLive_socketJoin (s : State) (h x : String) (r : Val) :
    isLive (socketJoin s h r) x = isLive s x := by
  rw [Bool.eq_iff_iff, isLive_iff, isLive_iff, socketIds_socketJoin]

theorem isLive_socketLeave (s : State) (h x : String) (r : Val) :
    isLive (socketLeave s h r) x = isLive s x := by
  rw [Bool.eq_iff_iff, isLive_iff, isLive_iff, socketIds_socketLeave]

theorem socketEmit_live {s : State} {h : String} (hl : isLive s h = true) (m : Msg) :
    socketEmit s h m = [(h, m)] := by
  simp [socketEmit, hl]

theorem isErrorDelivery_ioTo (s : State) (r : Val) (m : Msg)
    (hm : ∀ h, isErrorDelivery (h, m) = false) :
    ∀ d ∈ ioTo s r m, isErrorDelivery d = false := by
  intro d hd
  simp only [ioTo, List.mem_map] at hd
  obtain ⟨x, _, rfl⟩ := hd
  exact hm x

theorem isErrorDelivery_socketTo (s : State) (h : String) (r : Val) (m : Msg)
    (hm : ∀ h, isErrorDelivery (h, m) = false) :
    ∀ d ∈ socketTo s h r m, isErrorDelivery d = false := by
  intro d hd
  simp only [socketTo, List.mem_map] at hd
  obtain ⟨x, _, rfl⟩ := hd
  exact hm x

theorem isErrorDelivery_socketEmit (s : State) (h : String) (m : Msg)
    (hm : ∀ h, isErrorDelivery (h, m) = false) :
    ∀ d ∈ socketEmit s h m, isErrorDelivery d = false := by
  intro d hd
  unfold socketEmit at hd
  split at hd
  · simp only [List.mem_singleton] at hd
    subst hd
    exact hm h
  · simp at hd

theorem roomJoin_base (now : Nat) (s : State) (h : String) (r : Val) :
    (mapGet (if mapHas (socketJoin s h r).rooms r then (socketJoin s h r).rooms
        else mapSet (socketJoin s h r).rooms r (newRoom r now)) r).getD (newRoom r now)
      = (mapGet s.rooms r).getD (newRoom r now) := by
  simp only [socketJoin, updSocket, mapHas]
  cases hg : mapGet s.rooms r with
  | none => simp [mapGet_mapSet_self]
  | some room => simp [hg]

theorem roomJoin_deliveries (now : Nat) (s : State) (h : String) (r u n d : Val) :
    (roomJoin now s h r u n d).2
      = socketTo (socketJoin s h r) h r (.userJoined u n d h
          (joinedRoom now ((mapGet s.rooms r).getD (newRoom r now)) h u n d).participants.length)
        ++ socketEmit (socketJoin s h r) h (.roomJoined r
          ((mapValues (joinedRoom now ((mapGet s.rooms r).getD (newRoom r now)) h u n d).participants).filter
            (fun p => decide (p.socketId ≠ h)))
          (joinedRoom now ((mapGet s.rooms r).getD (newRoom r now)) h u n d).participants.length)
        ++ (if (joinedRoom now ((mapGet s.rooms r).getD (newRoom r now)) h u n d).participants.length ≥ 2
            then ioTo (socketJoin s h r) r (.roomStatus "active") else []) := by
  unfold roomJoin
  simp only [roomJoin_base, joinedRoom]
  split <;> simp

theorem roomJoin_no_error (now : Nat) (s : State) (h : String) (r u n d : Val) :
    ∀ x ∈ (roomJoin now s h r u n d).2, isErrorDelivery x = false := by
  intro x hx
  rw [roomJoin_deliveries] at hx
  simp only [List.mem_append] at hx
  rcases hx with (hx | hx) | hx
  · refine isErrorDelivery_socketTo _ _ _ _ ?_ x hx
    intro _; rfl
  · refine isErrorDelivery_socketEmit _ _ _ ?_ x hx
    intro _; rfl
  · split at hx
    · refine isErrorDelivery_ioTo _ _ _ ?_ x hx
      intro _; rfl
    · simp at hx

theorem roomJoin_reply (now : Nat) (s : State) (h : String) (r u n d : Val)
    (hl : isLive s h = true) :
    ∃ others cnt, (h, Msg.roomJoined r others cnt) ∈ (roomJoin now s h r u n d).2 := by
  have hl2 : isLive (socketJoin s h r) h = true := by rw [isLive_socketJoin]; exact hl
  rw [roomJoin_deliveries, socketEmit_live hl2]
  exact ⟨_, _, List.mem_append_left _ (List.mem_append_right _ (List.mem_singleton.mpr rfl))⟩

theorem roomJoin_get_self (now : Nat) (s : State) (h : String) (r u n d : Val) :
    mapGet (roomJoin now s h r u n d).1.rooms r
      = some (joinedRoom now ((mapGet s.rooms r).getD (newRoom r now)) h u n d) := by
  rw [roomJoin_rooms, mapGet_mapSet_self]

theorem roomJoin_get_of_ne (now : Nat) (s : State) (h : String) (r u n d : Val) {r' : Val}
    (hne : r' ≠ r) : mapGet (roomJoin now s h r u n d).1.rooms r' = mapGet s.rooms r' := by
  rw [roomJoin_rooms, mapGet_mapSet_of_ne _ _ hne]

theorem socketIds_userJoin (s : State) (h : String) (u n : Val) :
    socketIds (userJoin s h u n).1 = socketIds s := by
  simp only [userJoin]
  exact socketIds_updSocket s h _ (fun _ => rfl)

theorem isLive_userJoin (s : State) (h y : String) (u n : Val) :
    isLive (userJoin s h u n).1 y = isLive s y := by
  rw [Bool.eq_iff_iff, isLive_iff, isLive_iff, socketIds_userJoin]

theorem step_userJoin_live {s : State} {h : String} (hl : isLive s h = true) (now : Nat)
    (u n : Val) : step now s (.userJoin h u n) = userJoin s h u n := by
  obtain ⟨c, _, _, hc⟩ := onSocket_live hl (fun _ => userJoin s h u n)
  simpa [step] using hc

theorem userJoin_registry (s : State) (h : String) (u n : Val) :
    mapGet (userJoin s h u n).1.userSockets u = some h := by
  simp [userJoin, updSocket, mapGet_mapSet_self]

theorem run_append (s : State) (es fs : List (Nat × Event)) :
    (run s (es ++ fs)).1 = (run (run s es).1 fs).1 := by
  induction es generalizing s with
  | nil => rfl
  | cons e rest ih =>
    obtain ⟨now, e⟩ := e
    simp only [List.cons_append, run]
    exact ih _

theorem mem_ioTo {s : State} {room : Val} {h : String} (hin : h ∈ inRoom s room) (m : Msg) :
    (h, m) ∈ ioTo s room m := by
  simp only [ioTo, List.mem_map]
  exact ⟨h, hin, rfl⟩

theorem mapSet_of_mapGet {κ ν : Type} [DecidableEq κ] {m : List (κ × ν)} {k : κ} {v : ν}
    (h : mapGet m k = some v) : mapSet m k v = m := by
  induction m with
  | nil => simp [mapGet] at h
  | cons e rest ih =>
    obtain ⟨k0, v0⟩ := e
    by_cases hk : k0 = k
    · simp [mapGet, hk] at h
      simp [mapSet, hk, h]
    · simp [mapGet, hk] at h
      simp [mapSet, hk, ih h]

theorem RoomsWF.set {rooms : List (Val × Room)} {ids : List String} (hw : RoomsWF rooms ids)
    (r : Val) {room1 : Room} (hnd : (mapKeys room1.participants).Nodup)
    (hsub : ∀ h ∈ mapKeys room1.participants, h ∈ ids) : RoomsWF (mapSet rooms r room1) ids := by
  refine ⟨nodup_mapKeys_mapSet r room1 hw.1, ?_⟩
  intro r2 room2 hg
  by_cases hr : r2 = r
  · subst hr
    rw [mapGet_mapSet_self] at hg
    cases hg
    exact ⟨hnd, hsub⟩
  · rw [mapGet_mapSet_of_ne _ _ hr] at hg
    exact hw.2 r2 room2 hg

theorem RoomsWF.delete {rooms : List (Val × Room)} {ids : List String} (hw : RoomsWF rooms ids)
    (r : Val) : RoomsWF (mapDelete rooms r) ids := by
  refine ⟨nodup_mapKeys_mapDelete r hw.1, ?_⟩
  intro r2 room2 hg
  by_cases hr : r2 = r
  · subst hr
    rw [mapGet_mapDelete_self] at hg
    cases hg
  · rw [mapGet_mapDelete_of_ne _ hr] at hg
    exact hw.2 r2 room2 hg

theorem RoomsWF.mono {rooms : List (Val × Room)} {ids ids2 : List String}
    (hw : RoomsWF rooms ids) (hsub : ∀ h ∈ ids, h ∈ ids2) : RoomsWF rooms ids2 :=
  ⟨hw.1, fun r room hg => ⟨(hw.2 r room hg).1, fun h hh => hsub h ((hw.2 r room hg).2 h hh)⟩⟩

theorem handleUserLeaveRoom_rooms (s : State) (h : String) (r : Val) :
    (handleUserLeaveRoom s h r).1.rooms =
      match mapGet s.rooms r with
      | none => s.rooms
      | some room =>
        match leftRoom h room with
        | none => mapDelete s.rooms r
        | some room1 => mapSet s.rooms r room1 := by
  unfold handleUserLeaveRoom
  cases hg : mapGet s.rooms r with
  | none => rfl
  | some room =>
    simp only [leftRoom, mapHas]
    cases hp : mapGet room.participants h with
    | none => simp [mapSet_of_mapGet hg]
    | some p =>
      simp only [Option.isSome_some, if_true]
      split <;> simp [socketLeave, updSocket, *]

theorem handleUserLeaveRoom_get_self (s : State) (h : String) (r : Val) :
    mapGet (handleUserLeaveRoom s h r).1.rooms r = (mapGet s.rooms r).bind (leftRoom h) := by
  rw [handleUserLeaveRoom_rooms]
  cases hg : mapGet s.rooms r with
  | none => simp [hg]
  | some room =>
    simp only [Option.bind_some]
    cases hl : leftRoom h room with
    | none => simp [hl, mapGet_mapDelete_self]
    | some room1 => simp [hl, mapGet_mapSet_self]

theorem handleUserLeaveRoom_get_of_ne (s : State) (h : String) {r r2 : Val} (hne : r2 ≠ r) :
    mapGet (handleUserLeaveRoom s h r).1.rooms r2 = mapGet s.rooms r2 := by
  rw [handleUserLeaveRoom_rooms]
  cases hg : mapGet s.rooms r with
  | none => rfl
  | some room =>
    cases hl : leftRoom h room with
    | none => simp [hl, mapGet_mapDelete_of_ne _ hne]
    | some room1 => simp [hl, mapGet_mapSet_of_ne _ _ hne]

theorem handleUserLeaveRoom_socketIds (s : State) (h : String) (r : Val) :
    socketIds (handleUserLeaveRoom s h r).1 = socketIds s := by
  unfold handleUserLeaveRoom
  split
  · rfl
  · split
    · rfl
    · simp only
      split
      · exact socketIds_socketLeave s h r
      · exact socketIds_socketLeave s h r

theorem handleUserLeaveRoom_closed (s : State) (h : String) (r : Val) :
    (handleUserLeaveRoom s h r).1.closed = s.closed := by
  unfold handleUserLeaveRoom
  split
  · rfl
  · split
    · rfl
    · simp only
      split <;> rfl

theorem handleUserLeaveRoom_userSockets (s : State) (h : String) (r : Val) :
    (handleUserLeaveRoom s h r).1.userSockets = s.userSockets := by
  unfold handleUserLeaveRoom
  split
  · rfl
  · split
    · rfl
    · simp only
      split <;> rfl

theorem leftRoom_keys {h : String} {room room1 : Room} (hl : leftRoom h room = some room1) :
    mapKeys room1.participants = (mapKeys room.participants).filter (fun x => decide (x ≠ h)) := by
  unfold leftRoom at hl
  split at hl
  · simp only at hl
    split at hl
    · cases hl
    · cases hl
      simp only [mapKeys, mapDelete, List.filter_map]
      rfl
  · rename_i hno
    cases hl
    have hnot : h ∉ mapKeys room.participants := by
      rw [← mapHas_iff]; exact hno
    symm
    rw [List.filter_eq_self]
    intro x hx
    have : x ≠ h := fun hxh => hnot (hxh ▸ hx)
    simpa using this

theorem leftRoom_not_mem {h : String} {room room1 : Room} (hl : leftRoom h room = some room1) :
    h ∉ mapKeys room1.participants := by
  rw [leftRoom_keys hl]
  intro hm
  simpa using (List.mem_filter.mp hm).2

theorem leftRoom_of_not_mem {h : String} {room : Room} (hn : h ∉ mapKeys room.participants) :
    leftRoom h room = some room := by
  have : mapHas room.participants h = false := by
    rw [← Bool.not_eq_true, mapHas_iff]; exact hn
  simp [leftRoom, this]

theorem leftRoom_idem {h : String} (o : Option Room) :
    ((o.bind (leftRoom h)).bind (leftRoom h)) = o.bind (leftRoom h) := by
  cases o with
  | none => rfl
  | some room =>
    cases hl : leftRoom h room with
    | none => simp [Option.bind, hl]
    | some room1 =>
      simp only [Option.bind, hl]
      exact leftRoom_of_not_mem (leftRoom_not_mem hl)

theorem handleUserLeaveRoom_wf {s : State} {ids : List String} (hw : RoomsWF s.rooms ids)
    (h : String) (r : Val) : RoomsWF (handleUserLeaveRoom s h r).1.rooms ids := by
  rw [handleUserLeaveRoom_rooms]
  cases hg : mapGet s.rooms r with
  | none => exact hw
  | some room =>
    cases hl : leftRoom h room with
    | none =>
      simp only [hl]
      exact hw.delete r
    | some room1 =>
      simp only [hl]
      have hk := leftRoom_keys hl
      have hr := hw.2 r room hg
      refine hw.set r ?_ ?_
      · rw [hk]; exact hr.1.filter _
      · intro x hx
        rw [hk] at hx
        exact hr.2 x (List.mem_filter.mp hx).1

theorem leaveAll_get (h : String) (keys : List Val) (s : State) (r : Val) :
    mapGet (leaveAll h keys s).1.rooms r
      = if r ∈ keys then (mapGet s.rooms r).bind (leftRoom h) else mapGet s.rooms r := by
  induction keys generalizing s with
  | nil => simp [leaveAll]
  | cons k ks ih =>
    unfold leaveAll
    cases hg : mapGet s.rooms k with
    | none =>
      simp only
      rw [ih]
      by_cases hr : r = k
      · subst hr
        simp [hg]
      · simp [hr]
    | some room =>
      simp only
      by_cases hh : mapHas room.participants h = true
      · simp only [hh, if_true]
        rw [ih]
        by_cases hr : r = k
        · subst hr
          simp only [List.mem_cons, true_or, if_true, handleUserLeaveRoom_get_self]
          split
          · exact leftRoom_idem _
          · rfl
        · simp [hr, handleUserLeaveRoom_get_of_ne s h hr]
      · simp only [hh, Bool.false_eq_true, if_false]
        rw [ih]
        by_cases hr : r = k
        · subst hr
          have hn : h ∉ mapKeys room.participants := by
            rw [← mapHas_iff]; exact hh
          simp [hg, leftRoom_of_not_mem hn]
        · simp [hr]

theorem leaveAll_wf (h : String) (keys : List Val) {s : State} {ids : List String}
    (hw : RoomsWF s.rooms ids) : RoomsWF (leaveAll h keys s).1.rooms ids := by
  induction keys generalizing s with
  | nil => exact hw
  | cons k ks ih =>
    unfold leaveAll
    split
    · exact ih hw
    · split
      · exact ih (handleUserLeaveRoom_wf hw h k)
      · exact ih hw

theorem leaveAll_socketIds (h : String) (keys : List Val) (s : State) :
    socketIds (leaveAll h keys s).1 = socketIds s := by
  induction keys generalizing s with
  | nil => rfl
  | cons k ks ih =>
    unfold leaveAll
    split
    · exact ih s
    · split
      · simp only
        rw [ih, handleUserLeaveRoom_socketIds]
      · exact ih s

theorem leaveAll_closed (h : String) (keys : List Val) (s : State) :
    (leaveAll h keys s).1.closed = s.closed := by
  induction keys generalizing s with
  | nil => rfl
  | cons k ks ih =>
    unfold leaveAll
    split
    · exact ih s
    · split
      · simp only
        rw [ih, handleUserLeaveRoom_closed]
      · exact ih s

theorem leaveAll_userSockets (h : String) (keys : List Val) (s : State) :
    (leaveAll h keys s).1.userSockets = s.userSockets := by
  induction keys generalizing s with
  | nil => rfl
  | cons k ks ih =>
    unfold leaveAll
    split
    · exact ih s
    · split
      · simp only
        rw [ih, handleUserLeaveRoom_userSockets]
      · exact ih s


theorem disconnect_get (s : State) (c : Socket) (r : Val) :
    mapGet (disconnect s c).1.rooms r = (mapGet s.rooms r).bind (leftRoom c.id) := by
  unfold disconnect
  simp only
  rw [leaveAll_get]
  have hrooms : (if c.userId.truthy = true then
      ({ rooms := s.rooms, userSockets := mapDelete s.userSockets c.userId,
         sockets := s.sockets.filter (fun d => decide (d.id ≠ c.id)),
         closed := c.id :: s.closed } : State)
      else { s with sockets := s.sockets.filter (fun d => decide (d.id ≠ c.id)),
                    closed := c.id :: s.closed }).rooms = s.rooms := by
    split <;> rfl
  rw [hrooms]
  split
  · rfl
  · rename_i hn
    have : mapGet s.rooms r = none := by
      rw [mapGet_eq_none_iff]; exact hn
    simp [this]

theorem disconnect_socketIds (s : State) (c : Socket) :
    socketIds (disconnect s c).1 = (socketIds s).filter (fun x => decide (x ≠ c.id)) := by
  unfold disconnect
  simp only
  rw [leaveAll_socketIds]
  split <;> simp [socketIds, List.filter_map, Function.comp_def]

theorem disconnect_closed (s : State) (c : Socket) :
    (disconnect s c).1.closed = c.id :: s.closed := by
  unfold disconnect
  simp only
  rw [leaveAll_closed]
  split <;> rfl

theorem disconnect_wf {s : State} (c : Socket) (hw : RoomsWF s.rooms (socketIds s)) :
    RoomsWF (disconnect s c).1.rooms (socketIds (disconnect s c).1) := by
  have h1 : RoomsWF (disconnect s c).1.rooms (socketIds s) := by
    unfold disconnect
    simp only
    apply leaveAll_wf
    split <;> exact hw
  refine ⟨h1.1, ?_⟩
  intro r room hg
  refine ⟨(h1.2 r room hg).1, ?_⟩
  intro x hx
  rw [disconnect_socketIds]
  refine List.mem_filter.mpr ⟨(h1.2 r room hg).2 x hx, ?_⟩
  rw [disconnect_get] at hg
  cases ho : mapGet s.rooms r with
  | none => simp [ho] at hg
  | some room0 =>
    rw [ho] at hg
    have := @leftRoom_not_mem c.id room0 room hg
    have hne : x ≠ c.id := fun hxc => this (hxc ▸ hx)
    simpa using hne

theorem kickLoop_false (s : State) (r u : Val) (room : Room) (l : List (String × Participant))
    (hf : (kickLoop s r u room l).1 = false) : (kickLoop s r u room l).2 = (s, []) := by
  induction l with
  | nil => rfl
  | cons e rest ih =>
    obtain ⟨sid, p⟩ := e
    unfold kickLoop at hf ⊢
    split at hf
    · split at hf
      · simp at hf
      · rename_i hu _ hnone
        simp only [hu, if_true, hnone]
        exact ih hf
    · rename_i hu
      simp only [hu, if_false]
      exact ih hf

theorem kickLoop_true (s : State) (r u : Val) (room : Room) (l : List (String × Participant))
    (ht : (kickLoop s r u room l).1 = true) :
    ∃ sid p, (sid, p) ∈ l ∧ p.userId = u ∧ isLive s sid = true ∧
      (kickLoop s r u room l).2.1 =
        { socketLeave s sid r with
          rooms := mapSet s.rooms r
            { room with participants := mapDelete room.participants sid } } ∧
      (kickLoop s r u room l).2.2 = [(sid, .roomKicked "Disconnected by admin")] := by
  induction l with
  | nil => simp [kickLoop] at ht
  | cons e rest ih =>
    obtain ⟨sid, p⟩ := e
    unfold kickLoop at ht ⊢
    split at ht
    · rename_i hu
      split at ht
      · rename_i c hc
        have hl : isLive s sid = true := isLive_of_findSocket hc
        refine ⟨sid, p, List.mem_cons_self _ _, hu, hl, ?_, ?_⟩
        · simp [hu, hc, socketLeave, updSocket]
        · simp [hu, hc, socketEmit, hl]
      · rename_i hnone
        obtain ⟨sid2, p2, hm, h1, h2, h3, h4⟩ := ih ht
        refine ⟨sid2, p2, List.mem_cons_of_mem _ hm, h1, h2, ?_, ?_⟩
        · simp only [hu, if_true, hnone]; exact h3
        · simp only [hu, if_true, hnone]; exact h4
    · rename_i hu
      obtain ⟨sid2, p2, hm, h1, h2, h3, h4⟩ := ih ht
      refine ⟨sid2, p2, List.mem_cons_of_mem _ hm, h1, h2, ?_, ?_⟩
      · simp only [hu, if_false]; exact h3
      · simp only [hu, if_false]; exact h4

theorem kickLoop_true_of_live (s : State) (r u : Val) (room : Room)
    (l : List (String × Participant)) (hlive : ∀ e ∈ l, isLive s e.1 = true)
    (hex : ∃ e ∈ l, e.2.userId = u) : (kickLoop s r u room l).1 = true := by
  induction l with
  | nil => simp at hex
  | cons e rest ih =>
    obtain ⟨sid, p⟩ := e
    unfold kickLoop
    by_cases hu : p.userId = u
    · have hl := hlive (sid, p) (List.mem_cons_self _ _)
      simp only [isLive] at hl
      cases hc : findSocket s sid with
      | none => simp [hc] at hl
      | some c => simp [hu, hc]
    · simp only [hu, if_false]
      apply ih (fun e he => hlive e (List.mem_cons_of_mem _ he))
      obtain ⟨e, he, heu⟩ := hex
      rcases List.mem_cons.mp he with heq | hmem
      · subst heq
        exact absurd heu hu
      · exact ⟨e, hmem, heu⟩

theorem disconnectUserFromRoom_false (s : State) (r u : Val)
    (hf : (disconnectUserFromRoom s r u).1 = false) :
    (disconnectUserFromRoom s r u).2 = (s, []) := by
  unfold disconnectUserFromRoom at hf ⊢
  split
  · rfl
  · rename_i room hg
    simp only [hg] at hf
    exact kickLoop_false s r u room _ hf

theorem disconnectUserFromRoom_true (s : State) (r u : Val)
    (ht : (disconnectUserFromRoom s r u).1 = true) :
    ∃ room sid p, mapGet s.rooms r = some room ∧ (sid, p) ∈ room.participants ∧
      p.userId = u ∧ isLive s sid = true ∧
      (disconnectUserFromRoom s r u).2.1 =
        { socketLeave s sid r with
          rooms := mapSet s.rooms r
            { room with participants := mapDelete room.participants sid } } ∧
      (disconnectUserFromRoom s r u).2.2 = [(sid, .roomKicked "Disconnected by admin")] := by
  unfold disconnectUserFromRoom at ht ⊢
  split
  · rename_i hg
    simp [hg] at ht
  · rename_i room hg
    simp only [hg] at ht
    obtain ⟨sid, p, h1, h2, h3, h4, h5⟩ := kickLoop_true s r u room _ ht
    exact ⟨room, sid, p, hg, h1, h2, h3, h4, h5⟩

theorem disconnectUserFromRoom_state (s : State) (r u : Val) :
    (disconnectUserFromRoom s r u).2.1 = s ∨
    ∃ room sid, mapGet s.rooms r = some room ∧
      (disconnectUserFromRoom s r u).2.1 =
        { socketLeave s sid r with
          rooms := mapSet s.rooms r
            { room with participants := mapDelete room.participants sid } } := by
  cases hb : (disconnectUserFromRoom s r u).1 with
  | false =>
    left
    rw [disconnectUserFromRoom_false s r u hb]
  | true =>
    right
    obtain ⟨room, sid, p, h1, _, _, _, h5, _⟩ := disconnectUserFromRoom_true s r u hb
    exact ⟨room, sid, h1, h5⟩

theorem mediaToggle_state (s : State) (c : Socket) (r m e : Val) :
    (mediaToggle s c r m e).1 = s ∨
    ∃ room p p1, mapGet s.rooms r = some room ∧ mapGet room.participants c.id = some p ∧
      (mediaToggle s c r m e).1 =
        { s with
          rooms := mapSet s.rooms r
            { room with participants := mapSet room.participants c.id p1 } } := by
  unfold mediaToggle
  split
  · left; rfl
  · rename_i room hg
    split
    · left; rfl
    · rename_i p hp
      right
      exact ⟨room, p, _, hg, hp, rfl⟩

theorem Inv.of_same_sockets {s s1 : State} (hi : Inv s) (hids : socketIds s1 = socketIds s)
    (hclosed : s1.closed = s.closed) (hr : RoomsWF s1.rooms (socketIds s)) : Inv s1 :=
  ⟨hids ▸ hr, hids ▸ hi.socketsNodup, fun h hh => hclosed ▸ hi.liveNotClosed h (hids ▸ hh)⟩

theorem roomJoin_state (now : Nat) (s : State) (h : String) (r u n d : Val) :
    (roomJoin now s h r u n d).1
      = { socketJoin s h r with
          rooms := mapSet s.rooms r
            (joinedRoom now ((mapGet s.rooms r).getD (newRoom r now)) h u n d) } := by
  have hr := roomJoin_rooms now s h r u n d
  have hrest : (roomJoin now s h r u n d).1.userSockets = (socketJoin s h r).userSockets ∧
      (roomJoin now s h r u n d).1.sockets = (socketJoin s h r).sockets ∧
      (roomJoin now s h r u n d).1.closed = (socketJoin s h r).closed := by
    unfold roomJoin
    simp only [apply_ite Prod.fst, apply_ite State.userSockets, apply_ite State.sockets,
      apply_ite State.closed, ite_self, and_self]
  cases hs : (roomJoin now s h r u n d).1 with
  | mk rooms us socks cl =>
    rw [hs] at hr hrest
    simp only at hr hrest
    rw [hr, hrest.1, hrest.2.1, hrest.2.2]

theorem roomJoin_socketIds (now : Nat) (s : State) (h : String) (r u n d : Val) :
    socketIds (roomJoin now s h r u n d).1 = socketIds s := by
  rw [roomJoin_state]
  exact socketIds_socketJoin s h r

theorem roomJoin_closed (now : Nat) (s : State) (h : String) (r u n d : Val) :
    (roomJoin now s h r u n d).1.closed = s.closed := by
  rw [roomJoin_state]
  rfl

theorem roomJoin_userSockets (now : Nat) (s : State) (h : String) (r u n d : Val) :
    (roomJoin now s h r u n d).1.userSockets = s.userSockets := by
  rw [roomJoin_state]
  rfl

theorem joinedRoom_keys (now : Nat) (base : Room) (h : String) (u n d : Val) (x : String) :
    x ∈ mapKeys (joinedRoom now base h u n d).participants
      ↔ x = h ∨ x ∈ mapKeys base.participants := by
  simp only [joinedRoom]
  exact mem_mapKeys_mapSet _ _ _ _

theorem joinedRoom_nodup (now : Nat) {base : Room} (h : String) (u n d : Val)
    (hnd : (mapKeys base.participants).Nodup) :
    (mapKeys (joinedRoom now base h u n d).participants).Nodup := by
  simp only [joinedRoom]
  exact nodup_mapKeys_mapSet _ _ hnd

theorem roomJoin_wf {s : State} {ids : List String} (hw : RoomsWF s.rooms ids) (now : Nat)
    {h : String} (hh : h ∈ ids) (r u n d : Val) :
    RoomsWF (roomJoin now s h r u n d).1.rooms ids := by
  rw [roomJoin_rooms]
  have hbase : (mapKeys ((mapGet s.rooms r).getD (newRoom r now)).participants).Nodup ∧
      ∀ x ∈ mapKeys ((mapGet s.rooms r).getD (newRoom r now)).participants, x ∈ ids := by
    cases hg : mapGet s.rooms r with
    | none => simp [newRoom, mapKeys]
    | some room => exact hw.2 r room hg
  refine hw.set r (joinedRoom_nodup now h u n d hbase.1) ?_
  intro x hx
  rcases (joinedRoom_keys now _ h u n d x).mp hx with hx | hx
  · exact hx ▸ hh
  · exact hbase.2 x hx

theorem inv_connect {s : State} (hi : Inv s) (h : String) (now : Nat) :
    Inv (step now s (.connect h)).1 := by
  simp only [step]
  split
  · exact hi
  · rename_i hc
    simp only [Bool.or_eq_true, decide_eq_true_eq, not_or] at hc
    have hnl : h ∉ socketIds s := by
      rw [← isLive_iff]; exact hc.1
    refine ⟨?_, ?_, ?_⟩
    · refine hi.rooms.mono ?_
      intro x hx
      simp only [socketIds, List.map_append, List.mem_append]
      exact Or.inl hx
    · simp only [socketIds, List.map_append, List.map_cons, List.map_nil]
      refine List.Nodup.append hi.socketsNodup (List.nodup_singleton _) ?_
      intro x hx hx2
      simp only [List.mem_singleton] at hx2
      exact hnl (hx2 ▸ hx)
    · intro x hx
      simp only [socketIds, List.map_append, List.map_cons, List.map_nil, List.mem_append,
        List.mem_singleton] at hx
      rcases hx with hx | hx
      · exact hi.liveNotClosed x hx
      · exact hx ▸ hc.2

theorem inv_onSocket {s : State} (hi : Inv s) (h : String) (f : Socket → State × List Delivery)
    (hf : ∀ c, findSocket s h = some c → Inv (f c).1) : Inv (onSocket s h f).1 := by
  unfold onSocket
  split
  · exact hi
  · rename_i c hc
    exact hf c hc

theorem inv_disconnect {s : State} (hi : Inv s) (c : Socket) : Inv (disconnect s c).1 := by
  refine ⟨disconnect_wf c hi.rooms, ?_, ?_⟩
  · rw [disconnect_socketIds]
    exact hi.socketsNodup.filter _
  · intro x hx
    rw [disconnect_socketIds] at hx
    rw [disconnect_closed]
    obtain ⟨hx1, hx2⟩ := List.mem_filter.mp hx
    simp only [List.mem_cons, not_or]
    exact ⟨by simpa using hx2, hi.liveNotClosed x hx1⟩

theorem inv_kick {s : State} (hi : Inv s) (r u : Val) :
    Inv (disconnectUserFromRoom s r u).2.1 := by
  rcases disconnectUserFromRoom_state s r u with h | ⟨room, sid, hg, h⟩
  · rw [h]; exact hi
  · rw [h]
    refine hi.of_same_sockets (socketIds_socketLeave s sid r) rfl ?_
    have hr := hi.rooms.2 r room hg
    refine hi.rooms.set r (nodup_mapKeys_mapDelete _ hr.1) ?_
    intro x hx
    exact hr.2 x ((mem_mapKeys_mapDelete _ _ _).mp hx).2

theorem inv_mediaToggle {s : State} (hi : Inv s) (c : Socket) (r m e : Val) :
    Inv (mediaToggle s c r m e).1 := by
  rcases mediaToggle_state s c r m e with h | ⟨room, p, p1, hg, hp, h⟩
  · rw [h]; exact hi
  · rw [h]
    refine hi.of_same_sockets rfl rfl ?_
    have hr := hi.rooms.2 r room hg
    have hin : c.id ∈ mapKeys room.participants := by
      rw [← mapGet_isSome_iff, hp]; rfl
    refine hi.rooms.set r (nodup_mapKeys_mapSet _ _ hr.1) ?_
    intro x hx
    rcases (mem_mapKeys_mapSet _ _ _ _).mp hx with hx | hx
    · exact hr.2 x (hx ▸ hin)
    · exact hr.2 x hx

theorem inv_step {s : State} (hi : Inv s) (now : Nat) (e : Event) : Inv (step now s e).1 := by
  cases e with
  | connect h => exact inv_connect hi h now
  | userJoin h u n =>
    refine inv_onSocket hi h _ (fun c _ => ?_)
    exact hi.of_same_sockets (socketIds_userJoin s h u n) rfl hi.rooms
  | roomJoin h r u n d =>
    refine inv_onSocket hi h _ (fun c hc => ?_)
    have hh : h ∈ socketIds s := (isLive_iff s h).mp (isLive_of_findSocket hc)
    exact hi.of_same_sockets (roomJoin_socketIds now s h r u n d) (roomJoin_closed now s h r u n d)
      (roomJoin_wf hi.rooms now hh r u n d)
  | webrtcOffer h o r t => exact inv_onSocket hi h _ (fun _ _ => hi)
  | webrtcAnswer h a t => exact inv_onSocket hi h _ (fun _ _ => hi)
  | webrtcIceCandidate h c t => exact inv_onSocket hi h _ (fun _ _ => hi)
  | mediaToggle h r m e => exact inv_onSocket hi h _ (fun c _ => inv_mediaToggle hi c r m e)
  | chatMessage h r m n => exact inv_onSocket hi h _ (fun _ _ => hi)
  | roomLeave h r =>
    refine inv_onSocket hi h _ (fun c _ => ?_)
    exact hi.of_same_sockets (handleUserLeaveRoom_socketIds s h r)
      (handleUserLeaveRoom_closed s h r) (handleUserLeaveRoom_wf hi.rooms h r)
  | disconnect h => exact inv_onSocket hi h _ (fun c _ => inv_disconnect hi c)
  | kick r u => exact inv_kick hi r u

theorem inv_empty : Inv State.empty :=
  ⟨⟨List.nodup_nil, fun r room hg => by simp [State.empty, mapGet] at hg⟩, List.nodup_nil,
    fun h hh => by simp [State.empty, socketIds] at hh⟩

theorem reachable_inv {s : State} (hs : Reachable s) : Inv s := by
  induction hs with
  | empty => exact inv_empty
  | step _ now e ih => exact inv_step ih now e

theorem reachable_run {s : State} (hs : Reachable s) (es : List (Nat × Event)) :
    Reachable (run s es).1 := by
  induction es generalizing s with
  | nil => exact hs
  | cons e rest ih =>
    obtain ⟨now, e⟩ := e
    simp only [run]
    exact ih (Reachable.step hs now e)

theorem step_disconnect_live {s : State} {h : String} (hl : isLive s h = true) (now : Nat) :
    ∃ c, findSocket s h = some c ∧ c.id = h ∧ step now s (.disconnect h) = disconnect s c := by
  obtain ⟨c, h1, h2, h3⟩ := onSocket_live hl (fun c => disconnect s c)
  exact ⟨c, h1, h2, by simpa [step] using h3⟩

theorem step_disconnect_not_live {s : State} {h : String} (hl : isLive s h = false) (now : Nat) :
    step now s (.disconnect h) = (s, []) := by
  simpa [step] using onSocket_not_live hl (fun c => disconnect s c)

theorem step_disconnect_get {s : State} (hi : Inv s) (now : Nat) (h : String) (r : Val) :
    mapGet (step now s (.disconnect h)).1.rooms r = (mapGet s.rooms r).bind (leftRoom h) := by
  cases hl : isLive s h with
  | true =>
    obtain ⟨c, _, hid, hst⟩ := step_disconnect_live hl now
    rw [hst, disconnect_get, hid]
  | false =>
    rw [step_disconnect_not_live hl]
    cases hg : mapGet s.rooms r with
    | none => rfl
    | some room =>
      have hn : h ∉ mapKeys room.participants := by
        intro hm
        have := (isLive_iff s h).mpr ((hi.rooms.2 r room hg).2 h hm)
        rw [hl] at this
        cases this
      simp [Option.bind, leftRoom_of_not_mem hn]

theorem leftRoom_of_mem {h : String} {room : Room} (hnd : (mapKeys room.participants).Nodup)
    (hm : h ∈ mapKeys room.participants) (hlen : room.participants.length ≥ 2) :
    ∃ room1, leftRoom h room = some room1 ∧
      room1.participants = mapDelete room.participants h ∧
      room1.participants.length + 1 = room.participants.length := by
  have hlen2 := length_mapDelete hnd hm
  have hhas : mapHas room.participants h = true := (mapHas_iff _ _).mpr hm
  have hne : (mapDelete room.participants h).length ≠ 0 := by omega
  refine ⟨{ room with participants := mapDelete room.participants h,
                       status := if (mapDelete room.participants h).length ≥ 2 then "active"
                                 else "waiting" }, ?_, rfl, hlen2⟩
  simp only [leftRoom, hhas, if_true, hne, if_false]

theorem leftRoom_of_only {h : String} {room : Room} (hk : mapKeys room.participants = [h]) :
    leftRoom h room = none := by
  have hm : h ∈ mapKeys room.participants := by rw [hk]; exact List.mem_singleton.mpr rfl
  have hnd : (mapKeys room.participants).Nodup := by rw [hk]; exact List.nodup_singleton _
  have hlen := length_mapDelete hnd hm
  have hl1 : room.participants.length = 1 := by
    have := congrArg List.length hk
    simpa [mapKeys] using this
  have hhas : mapHas room.participants h = true := (mapHas_iff _ _).mpr hm
  have h0 : (mapDelete room.participants h).length = 0 := by omega
  simp only [leftRoom, hhas, if_true, h0]

theorem mem_rooms_iff {s : State} (hi : Inv s) (e : Val × Room) :
    e ∈ s.rooms ↔ mapGet s.rooms e.1 = some e.2 :=
  ⟨fun h => mapGet_of_mem hi.rooms.1 h, fun h => mem_of_mapGet h⟩

theorem lastIsJoin_nil (h : String) : lastIsJoin [] h = false := rfl

theorem lastIsJoin_append_one (ops : List (Nat × RoomOp)) (o : Nat × RoomOp) (h : String) :
    lastIsJoin (ops ++ [o]) h = if o.2.handle = h then o.2.isJoin else lastIsJoin ops h := by
  simp only [lastIsJoin, List.reverse_append, List.reverse_cons, List.reverse_nil, List.nil_append,
    List.singleton_append, List.find?_cons]
  by_cases hh : o.2.handle = h
  · simp [hh]
  · simp [hh]

theorem mem_handles_of_lastIsJoin {ops : List (Nat × RoomOp)} {h : String}
    (hl : lastIsJoin ops h = true) : h ∈ ops.map (fun o => o.2.handle) := by
  unfold lastIsJoin at hl
  cases hf : ops.reverse.find? (fun o => decide (o.2.handle = h)) with
  | none => simp [hf] at hl
  | some o =>
    have h1 := List.find?_some hf
    have h2 := List.mem_of_find?_eq_some hf
    simp only [decide_eq_true_eq] at h1
    simp only [List.mem_reverse] at h2
    exact List.mem_map.mpr ⟨o, h2, h1⟩

theorem mem_joinedSet (ops : List (Nat × RoomOp)) (h : String) :
    h ∈ joinedSet ops ↔ lastIsJoin ops h = true := by
  simp only [joinedSet, Finset.mem_filter, List.mem_toFinset]
  exact ⟨fun hh => hh.2, fun hh => ⟨mem_handles_of_lastIsJoin hh, hh⟩⟩

theorem leftRoom_none {h : String} {room : Room} (hl : leftRoom h room = none) :
    (mapKeys room.participants).filter (fun x => decide (x ≠ h)) = [] := by
  unfold leftRoom at hl
  split at hl
  · simp only at hl
    split at hl
    · rename_i h0
      have h1 : mapDelete room.participants h = [] := List.length_eq_zero.mp h0
      have : mapKeys (mapDelete room.participants h) = [] := by rw [h1]; rfl
      simpa [mapKeys, mapDelete, List.filter_map, Function.comp_def] using this
    · cases hl
  · cases hl

theorem leftRoom_some_ne_nil {h : String} {room room1 : Room} (hl : leftRoom h room = some room1)
    (hne : mapKeys room.participants ≠ []) : mapKeys room1.participants ≠ [] := by
  unfold leftRoom at hl
  split at hl
  · simp only at hl
    split at hl
    · cases hl
    · rename_i hlen
      cases hl
      intro hnil
      apply hlen
      have := congrArg List.length hnil
      simpa [mapKeys] using this
  · cases hl
    exact hne

theorem roomTracks_join {o : Option Room} {ops : List (Nat × RoomOp)} (ht : RoomTracks o ops)
    (now t : Nat) (r : Val) (h : String) (u n d : Val) :
    RoomTracks (some (joinedRoom now (o.getD (newRoom r now)) h u n d))
      (ops ++ [(t, .join h u n d)]) := by
  have hbase : (mapKeys (o.getD (newRoom r now)).participants).Nodup ∧
      ∀ x, x ∈ mapKeys (o.getD (newRoom r now)).participants ↔ lastIsJoin ops x = true := by
    cases o with
    | none =>
      simp only [RoomTracks] at ht
      simp [newRoom, mapKeys, ht]
    | some room => exact ⟨ht.1, ht.2.2⟩
  refine ⟨joinedRoom_nodup now h u n d hbase.1, ?_, ?_⟩
  · intro hnil
    have : h ∈ mapKeys (joinedRoom now (o.getD (newRoom r now)) h u n d).participants :=
      (joinedRoom_keys now _ h u n d h).mpr (Or.inl rfl)
    rw [hnil] at this
    cases this
  · intro x
    rw [joinedRoom_keys, lastIsJoin_append_one, hbase.2]
    simp only [RoomOp.handle, RoomOp.isJoin]
    by_cases hx : h = x
    · simp [hx]
    · have hx2 : ¬ x = h := fun e => hx e.symm
      simp [hx, hx2]

theorem roomTracks_leave {o : Option Room} {ops : List (Nat × RoomOp)} (ht : RoomTracks o ops)
    (t : Nat) (h : String) :
    RoomTracks (o.bind (leftRoom h)) (ops ++ [(t, .leave h)]) := by
  cases o with
  | none =>
    simp only [RoomTracks] at ht
    simp only [Option.bind, RoomTracks]
    intro x
    rw [lastIsJoin_append_one, ht x]
    simp [RoomOp.isJoin]
  | some room =>
    obtain ⟨hnd, hne0, hmem⟩ := ht
    simp only [Option.bind]
    cases hl : leftRoom h room with
    | none =>
      have hnil := leftRoom_none hl
      simp only [RoomTracks]
      intro x
      rw [lastIsJoin_append_one]
      simp only [RoomOp.handle, RoomOp.isJoin]
      by_cases hx : h = x
      · simp [hx]
      · simp only [hx, if_false]
        have hx2 : x ≠ h := fun e => hx e.symm
        cases hlx : lastIsJoin ops x with
        | false => rfl
        | true =>
          have hin : x ∈ (mapKeys room.participants).filter (fun y => decide (y ≠ h)) :=
            List.mem_filter.mpr ⟨(hmem x).mpr hlx, by simpa using hx2⟩
          rw [hnil] at hin
          cases hin
    | some room1 =>
      have hk := leftRoom_keys hl
      refine ⟨?_, ?_, ?_⟩
      · rw [hk]; exact hnd.filter _
      · exact leftRoom_some_ne_nil hl hne0
      · intro x
        rw [hk, lastIsJoin_append_one, List.mem_filter, hmem]
        simp only [RoomOp.handle, RoomOp.isJoin]
        by_cases hx : h = x
        · simp [hx]
        · have hx2 : ¬ x = h := fun e => hx e.symm
          simp [hx, hx2]

theorem run_snoc (s : State) (es : List (Nat × Event)) (now : Nat) (e : Event) :
    (run s (es ++ [(now, e)])).1 = (step now (run s es).1 e).1 := by
  rw [run_append]
  rfl

theorem run_roomTrace_tracks (s : State) (r : Val) (hr : mapGet s.rooms r = none)
    (ops : List (Nat × RoomOp)) (hlive : ∀ o ∈ ops, isLive s o.2.handle = true) :
    socketIds (run s (roomTrace r ops)).1 = socketIds s ∧
    RoomTracks (mapGet (run s (roomTrace r ops)).1.rooms r) ops := by
  induction ops using List.reverseRecOn with
  | nil =>
    refine ⟨rfl, ?_⟩
    simp only [roomTrace, List.map_nil, run, hr, RoomTracks]
    exact fun h => lastIsJoin_nil h
  | append_singleton ops o ih =>
    obtain ⟨t, op⟩ := o
    have ih2 := ih (fun o ho => hlive o (List.mem_append_left _ ho))
    have hl : isLive (run s (roomTrace r ops)).1 op.handle = true := by
      rw [isLive_iff, ih2.1, ← isLive_iff]
      exact hlive (t, op) (List.mem_append_right _ (List.mem_singleton.mpr rfl))
    have htr : roomTrace r (ops ++ [(t, op)]) = roomTrace r ops ++ [(t, op.toEvent r)] := by
      simp [roomTrace]
    rw [htr, run_snoc]
    cases op with
    | join h u n d =>
      simp only [RoomOp.toEvent]
      simp only [RoomOp.handle] at hl
      rw [step_roomJoin_live hl]
      refine ⟨by rw [roomJoin_socketIds]; exact ih2.1, ?_⟩
      rw [roomJoin_get_self]
      exact roomTracks_join ih2.2 t t r h u n d
    | leave h =>
      simp only [RoomOp.toEvent]
      simp only [RoomOp.handle] at hl
      rw [step_roomLeave_live hl]
      refine ⟨by rw [handleUserLeaveRoom_socketIds]; exact ih2.1, ?_⟩
      rw [handleUserLeaveRoom_get_self]
      exact roomTracks_leave ih2.2 t h

theorem mem_inRoom (s : State) (k : String) (x : Val) :
    k ∈ inRoom s x ↔ ∃ c ∈ s.sockets, c.id = k ∧ x ∈ c.rooms := by
  simp only [inRoom, List.mem_map, List.mem_filter, decide_eq_true_eq]
  constructor
  · rintro ⟨c, ⟨hc, hx⟩, hid⟩
    exact ⟨c, hc, hid, hx⟩
  · rintro ⟨c, hc, hid, hx⟩
    exact ⟨c, ⟨hc, hx⟩, hid⟩

theorem mem_inRoom_updSocket {s : State} {h : String} {f : Socket → Socket} {k : String}
    {x : Val} (hf : ∀ c, (f c).id = c.id)
    (hkeep : ∀ c, c.id = k → x ∈ c.rooms → c.id = h → x ∈ (f c).rooms)
    (hk : k ∈ inRoom s x) : k ∈ inRoom (updSocket s h f) x := by
  rw [mem_inRoom] at hk ⊢
  obtain ⟨c, hc, hid, hx⟩ := hk
  refine ⟨if c.id = h then f c else c, ?_, ?_, ?_⟩
  · simp only [updSocket, List.mem_map]
    exact ⟨c, hc, rfl⟩
  · split
    · rw [hf]; exact hid
    · exact hid
  · split
    · rename_i hh
      exact hkeep c hid hx hh
    · exact hx

theorem mem_inRoom_socketJoin_of_mem {s : State} {k : String} {x : Val} (h : String) (r : Val)
    (hk : k ∈ inRoom s x) : k ∈ inRoom (socketJoin s h r) x := by
  refine mem_inRoom_updSocket ?_ ?_ hk
  · intro c; split <;> rfl
  · intro c _ hx _
    split
    · exact hx
    · exact List.mem_append_left _ hx

theorem mem_inRoom_socketJoin_self {s : State} {h : String} (hl : isLive s h = true) (r : Val) :
    h ∈ inRoom (socketJoin s h r) r := by
  rw [isLive_iff] at hl
  simp only [socketIds, List.mem_map] at hl
  obtain ⟨c, hc, hid⟩ := hl
  rw [mem_inRoom]
  refine ⟨if r ∈ c.rooms then c else { c with rooms := c.rooms ++ [r] }, ?_, ?_, ?_⟩
  · simp only [socketJoin, updSocket, List.mem_map]
    exact ⟨c, hc, by simp [hid]⟩
  · split <;> exact hid
  · split
    · assumption
    · simp

theorem mem_inRoom_socketLeave {s : State} {k : String} {x : Val} (h : String) (r : Val)
    (hk : k ∈ inRoom s x) (hne : ¬ (k = h ∧ x = r)) : k ∈ inRoom (socketLeave s h r) x := by
  refine mem_inRoom_updSocket (fun _ => rfl) ?_ hk
  intro c hid hx hh
  simp only [List.mem_filter, decide_eq_true_eq]
  refine ⟨hx, ?_⟩
  intro hxr
  exact hne ⟨hid ▸ hh, hxr⟩

theorem inRoom_of_sockets_eq {s1 s2 : State} (h : s1.sockets = s2.sockets) (x : Val) :
    inRoom s1 x = inRoom s2 x := by
  simp only [inRoom, h]

theorem mem_mapSet {κ ν : Type} [DecidableEq κ] {m : List (κ × ν)} {k : κ} {v : ν} {e : κ × ν}
    (he : e ∈ mapSet m k v) : e = (k, v) ∨ e ∈ m := by
  induction m with
  | nil =>
    simp only [mapSet, List.mem_singleton] at he
    exact Or.inl he
  | cons e0 rest ih =>
    obtain ⟨k0, v0⟩ := e0
    by_cases hk : k0 = k
    · simp only [mapSet, hk, if_true, List.mem_cons] at he
      rcases he with he | he
      · exact Or.inl he
      · exact Or.inr (List.mem_cons_of_mem _ he)
    · simp only [mapSet, hk, if_false, List.mem_cons] at he
      rcases he with he | he
      · exact Or.inr (he ▸ List.mem_cons_self _ _)
      · rcases ih he with h1 | h1
        · exact Or.inl h1
        · exact Or.inr (List.mem_cons_of_mem _ h1)

theorem mem_mapDelete {κ ν : Type} [DecidableEq κ] {m : List (κ × ν)} {k : κ} {e : κ × ν}
    (he : e ∈ mapDelete m k) : e ∈ m ∧ e.1 ≠ k := by
  simp only [mapDelete, List.mem_filter, decide_eq_true_eq] at he
  exact he

theorem length_mapDelete_le {κ ν : Type} [DecidableEq κ] (m : List (κ × ν)) (k : κ) :
    (mapDelete m k).length ≤ m.length :=
  List.length_filter_le _ _

theorem roomOk_newRoom (r : Val) (now : Nat) : RoomOk (newRoom r now) := by
  refine ⟨?_, ?_⟩
  · intro e he
    simp [newRoom] at he
  · intro hlen
    simp [newRoom] at hlen

theorem roomOk_joinedRoom {base : Room} (hb : RoomOk base) (now : Nat) (h : String)
    (u n d : Val) : RoomOk (joinedRoom now base h u n d) := by
  refine ⟨?_, ?_⟩
  · intro e he
    simp only [joinedRoom] at he
    rcases mem_mapSet he with h1 | h1
    · rw [h1]
    · exact hb.1 e h1
  · intro hlen
    simp only [joinedRoom] at hlen ⊢
    simp [hlen]

theorem roomOk_leftRoom {room room1 : Room} {h : String} (hb : RoomOk room)
    (hl : leftRoom h room = some room1) : RoomOk room1 := by
  unfold leftRoom at hl
  split at hl
  · simp only at hl
    split at hl
    · cases hl
    · cases hl
      refine ⟨?_, ?_⟩
      · intro e he
        exact hb.1 e (mem_mapDelete he).1
      · intro hlen
        simp only at hlen ⊢
        simp [hlen]
  · cases hl
    exact hb

theorem roomOk_kicked {room : Room} (hb : RoomOk room) (sid : String) :
    RoomOk { room with participants := mapDelete room.participants sid } := by
  refine ⟨?_, ?_⟩
  · intro e he
    exact hb.1 e (mem_mapDelete he).1
  · intro hlen
    simp only at hlen ⊢
    exact hb.2 (le_trans hlen (length_mapDelete_le _ _))

theorem handleUserLeaveRoom_sockets (s : State) (h : String) (r : Val) :
    (handleUserLeaveRoom s h r).1.sockets = s.sockets ∨
    (handleUserLeaveRoom s h r).1.sockets = (socketLeave s h r).sockets := by
  unfold handleUserLeaveRoom
  split
  · left; rfl
  · split
    · left; rfl
    · right
      simp only
      split <;> rfl

theorem mem_inRoom_handleUserLeaveRoom {s : State} {k : String} {x : Val} (h : String) (r : Val)
    (hk : k ∈ inRoom s x) (hne : ¬ (k = h ∧ x = r)) :
    k ∈ inRoom (handleUserLeaveRoom s h r).1 x := by
  rcases handleUserLeaveRoom_sockets s h r with hs | hs
  · rw [inRoom_of_sockets_eq hs]; exact hk
  · rw [inRoom_of_sockets_eq hs]; exact mem_inRoom_socketLeave h r hk hne

theorem mem_inRoom_leaveAll {k : String} {x : Val} (h : String) (keys : List Val) {s : State}
    (hk : k ∈ inRoom s x) (hne : k ≠ h) : k ∈ inRoom (leaveAll h keys s).1 x := by
  induction keys generalizing s with
  | nil => exact hk
  | cons r rs ih =>
    unfold leaveAll
    split
    · exact ih hk
    · split
      · exact ih (mem_inRoom_handleUserLeaveRoom h r hk (fun hh => hne hh.1))
      · exact ih hk

theorem mem_inRoom_congr {s1 s2 : State} {k : String} {x : Val} (h : s1.sockets = s2.sockets)
    (hk : k ∈ inRoom s2 x) : k ∈ inRoom s1 x := by
  rw [inRoom_of_sockets_eq h]; exact hk

theorem mem_inRoom_filter {s s2 : State} {k h : String} {x : Val}
    (hs : s2.sockets = s.sockets.filter (fun d => decide (d.id ≠ h)))
    (hk : k ∈ inRoom s x) (hne : k ≠ h) : k ∈ inRoom s2 x := by
  rw [mem_inRoom] at hk ⊢
  obtain ⟨c1, hc1, hid, hx⟩ := hk
  refine ⟨c1, ?_, hid, hx⟩
  rw [hs]
  simp only [List.mem_filter, decide_eq_true_eq]
  exact ⟨hc1, fun hh => hne (hid ▸ hh)⟩

theorem mem_inRoom_disconnect {s : State} {k : String} {x : Val} (c : Socket)
    (hk : k ∈ inRoom s x) (hne : k ≠ c.id) : k ∈ inRoom (disconnect s c).1 x := by
  unfold disconnect
  simp only
  apply mem_inRoom_leaveAll _ _ _ hne
  split
  · exact mem_inRoom_filter rfl hk hne
  · exact mem_inRoom_filter rfl hk hne

theorem disconnect_userSockets (s : State) (c : Socket) :
    (disconnect s c).1.userSockets
      = if c.userId.truthy then mapDelete s.userSockets c.userId else s.userSockets := by
  unfold disconnect
  simp only
  rw [leaveAll_userSockets]
  split <;> rfl

theorem inv2_roomJoin {s : State} (hi : Inv2 s) (now : Nat) {h : String}
    (hl : isLive s h = true) (r u n d : Val) : Inv2 (roomJoin now s h r u n d).1 := by
  rw [roomJoin_state]
  have hbase : RoomOk ((mapGet s.rooms r).getD (newRoom r now)) ∧
      ∀ k ∈ mapKeys ((mapGet s.rooms r).getD (newRoom r now)).participants, k ∈ inRoom s r := by
    cases hg : mapGet s.rooms r with
    | none =>
      refine ⟨roomOk_newRoom r now, ?_⟩
      intro k hk
      simp [newRoom, mapKeys] at hk
    | some room => exact ⟨hi.roomOk r room hg, hi.inAdapterRoom r room hg⟩
  refine ⟨hi.registryNodup, ?_, ?_⟩
  · intro r2 room2 hg
    simp only at hg
    by_cases hr : r2 = r
    · subst hr
      rw [mapGet_mapSet_self] at hg
      cases hg
      exact roomOk_joinedRoom hbase.1 now h u n d
    · rw [mapGet_mapSet_of_ne _ _ hr] at hg
      exact hi.roomOk r2 room2 hg
  · intro r2 room2 hg k hk
    simp only at hg
    refine @mem_inRoom_congr _ (socketJoin s h r) k r2 rfl ?_
    by_cases hr : r2 = r
    · subst hr
      rw [mapGet_mapSet_self] at hg
      cases hg
      rcases (joinedRoom_keys now _ h u n d k).mp hk with h1 | h1
      · rw [h1]; exact mem_inRoom_socketJoin_self hl r2
      · exact mem_inRoom_socketJoin_of_mem h r2 (hbase.2 k h1)
    · rw [mapGet_mapSet_of_ne _ _ hr] at hg
      exact mem_inRoom_socketJoin_of_mem h r (hi.inAdapterRoom r2 room2 hg k hk)

theorem inv2_handleUserLeaveRoom {s : State} (hi : Inv2 s) (h : String) (r : Val) :
    Inv2 (handleUserLeaveRoom s h r).1 := by
  refine ⟨by rw [handleUserLeaveRoom_userSockets]; exact hi.registryNodup, ?_, ?_⟩
  · intro r2 room2 hg
    by_cases hr : r2 = r
    · subst hr
      rw [handleUserLeaveRoom_get_self] at hg
      cases ho : mapGet s.rooms r2 with
      | none => simp [ho] at hg
      | some room0 =>
        rw [ho] at hg
        exact roomOk_leftRoom (hi.roomOk r2 room0 ho) hg
    · rw [handleUserLeaveRoom_get_of_ne s h hr] at hg
      exact hi.roomOk r2 room2 hg
  · intro r2 room2 hg k hk
    by_cases hr : r2 = r
    · subst hr
      rw [handleUserLeaveRoom_get_self] at hg
      cases ho : mapGet s.rooms r2 with
      | none => simp [ho] at hg
      | some room0 =>
        rw [ho] at hg
        have hg2 : leftRoom h room0 = some room2 := hg
        rw [leftRoom_keys hg2] at hk
        obtain ⟨hk1, hk2⟩ := List.mem_filter.mp hk
        have hkh : k ≠ h := by simpa using hk2
        exact mem_inRoom_handleUserLeaveRoom h r2 (hi.inAdapterRoom r2 room0 ho k hk1)
          (fun hh => hkh hh.1)
    · rw [handleUserLeaveRoom_get_of_ne s h hr] at hg
      exact mem_inRoom_handleUserLeaveRoom h r (hi.inAdapterRoom r2 room2 hg k hk)
        (fun hh => hr hh.2)

theorem inv2_disconnect {s : State} (hi : Inv2 s) (c : Socket) : Inv2 (disconnect s c).1 := by
  refine ⟨?_, ?_, ?_⟩
  · rw [disconnect_userSockets]
    split
    · exact nodup_mapKeys_mapDelete _ hi.registryNodup
    · exact hi.registryNodup
  · intro r2 room2 hg
    rw [disconnect_get] at hg
    cases ho : mapGet s.rooms r2 with
    | none => simp [ho] at hg
    | some room0 =>
      rw [ho] at hg
      exact roomOk_leftRoom (hi.roomOk r2 room0 ho) hg
  · intro r2 room2 hg k hk
    rw [disconnect_get] at hg
    cases ho : mapGet s.rooms r2 with
    | none => simp [ho] at hg
    | some room0 =>
      rw [ho] at hg
      have hg2 : leftRoom c.id room0 = some room2 := hg
      rw [leftRoom_keys hg2] at hk
      obtain ⟨hk1, hk2⟩ := List.mem_filter.mp hk
      have hkh : k ≠ c.id := by simpa using hk2
      exact mem_inRoom_disconnect c (hi.inAdapterRoom r2 room0 ho k hk1) hkh

theorem inv2_kick {s : State} (hi : Inv2 s) (r u : Val) :
    Inv2 (disconnectUserFromRoom s r u).2.1 := by
  rcases disconnectUserFromRoom_state s r u with h | ⟨room, sid, hg0, h⟩
  · rw [h]; exact hi
  · rw [h]
    refine ⟨hi.registryNodup, ?_, ?_⟩
    · intro r2 room2 hg
      simp only at hg
      by_cases hr : r2 = r
      · subst hr
        rw [mapGet_mapSet_self] at hg
        cases hg
        exact roomOk_kicked (hi.roomOk r2 room hg0) sid
      · rw [mapGet_mapSet_of_ne _ _ hr] at hg
        exact hi.roomOk r2 room2 hg
    · intro r2 room2 hg k hk
      simp only at hg
      refine @mem_inRoom_congr _ (socketLeave s sid r) k r2 rfl ?_
      by_cases hr : r2 = r
      · subst hr
        rw [mapGet_mapSet_self] at hg
        cases hg
        obtain ⟨hk1, hk2⟩ := (mem_mapKeys_mapDelete _ _ _).mp hk
        exact mem_inRoom_socketLeave sid r2 (hi.inAdapterRoom r2 room hg0 k hk2)
          (fun hh => hk1 hh.1)
      · rw [mapGet_mapSet_of_ne _ _ hr] at hg
        exact mem_inRoom_socketLeave sid r (hi.inAdapterRoom r2 room2 hg k hk)
          (fun hh => hr hh.2)

theorem mediaToggle_state_explicit (s : State) (c : Socket) (r m e : Val) :
    (mediaToggle s c r m e).1 = s ∨
    ∃ room p, mapGet s.rooms r = some room ∧ mapGet room.participants c.id = some p ∧
      (mediaToggle s c r m e).1 =
        { s with
          rooms := mapSet s.rooms r
            { room with
              participants := mapSet room.participants c.id
                { p with props := mapSet p.props (m.toJsString ++ "Enabled") e } } } := by
  unfold mediaToggle
  split
  · left; rfl
  · rename_i room hg
    split
    · left; rfl
    · rename_i p hp
      right
      exact ⟨room, p, hg, hp, rfl⟩

theorem inv2_mediaToggle {s : State} (hi : Inv2 s) (c : Socket) (r m e : Val) :
    Inv2 (mediaToggle s c r m e).1 := by
  rcases mediaToggle_state_explicit s c r m e with h | ⟨room, p, hg0, hp, h⟩
  · rw [h]; exact hi
  · rw [h]
    have hin : c.id ∈ mapKeys room.participants := by
      rw [← mapGet_isSome_iff, hp]; rfl
    have hok := hi.roomOk r room hg0
    refine ⟨hi.registryNodup, ?_, ?_⟩
    · intro r2 room2 hg
      simp only at hg
      by_cases hr : r2 = r
      · subst hr
        rw [mapGet_mapSet_self] at hg
        cases hg
        refine ⟨?_, ?_⟩
        · intro x hx
          simp only at hx
          rcases mem_mapSet hx with h1 | h1
          · rw [h1]
            exact hok.1 (c.id, p) (mem_of_mapGet hp)
          · exact hok.1 x h1
        · intro hlen
          simp only [length_mapSet, hin, if_true] at hlen
          exact hok.2 hlen
      · rw [mapGet_mapSet_of_ne _ _ hr] at hg
        exact hi.roomOk r2 room2 hg
    · intro r2 room2 hg k hk
      simp only at hg
      refine @mem_inRoom_congr _ s k r2 rfl ?_
      by_cases hr : r2 = r
      · subst hr
        rw [mapGet_mapSet_self] at hg
        cases hg
        simp only at hk
        rcases (mem_mapKeys_mapSet _ _ _ _).mp hk with h1 | h1
        · exact hi.inAdapterRoom r2 room hg0 k (h1 ▸ hin)
        · exact hi.inAdapterRoom r2 room hg0 k h1
      · rw [mapGet_mapSet_of_ne _ _ hr] at hg
        exact hi.inAdapterRoom r2 room2 hg k hk

theorem inv2_userJoin {s : State} (hi : Inv2 s) (h : String) (u n : Val) :
    Inv2 (userJoin s h u n).1 := by
  refine ⟨?_, hi.roomOk, ?_⟩
  · simp only [userJoin, updSocket]
    exact nodup_mapKeys_mapSet _ _ hi.registryNodup
  · intro r2 room2 hg k hk
    have hk2 := hi.inAdapterRoom r2 room2 hg k hk
    have : k ∈ inRoom (updSocket s h (fun c => { c with userId := u, userName := n })) r2 :=
      mem_inRoom_updSocket (fun _ => rfl) (fun _ _ hx _ => hx) hk2
    exact mem_inRoom_congr rfl this

theorem inv2_connect {s : State} (hi : Inv2 s) (h : String) (now : Nat) :
    Inv2 (step now s (.connect h)).1 := by
  simp only [step]
  split
  · exact hi
  · refine ⟨hi.registryNodup, hi.roomOk, ?_⟩
    intro r2 room2 hg k hk
    have hk2 := hi.inAdapterRoom r2 room2 hg k hk
    rw [mem_inRoom] at hk2 ⊢
    obtain ⟨c, hc, hid, hx⟩ := hk2
    exact ⟨c, List.mem_append_left _ hc, hid, hx⟩

theorem inv2_onSocket {s : State} (hi : Inv2 s) (h : String)
    (f : Socket → State × List Delivery)
    (hf : ∀ c, findSocket s h = some c → Inv2 (f c).1) : Inv2 (onSocket s h f).1 := by
  unfold onSocket
  split
  · exact hi
  · rename_i c hc
    exact hf c hc

theorem inv2_step {s : State} (hi : Inv2 s) (now : Nat) (e : Event) :
    Inv2 (step now s e).1 := by
  cases e with
  | connect h => exact inv2_connect hi h now
  | userJoin h u n => exact inv2_onSocket hi h _ (fun _ _ => inv2_userJoin hi h u n)
  | roomJoin h r u n d =>
    exact inv2_onSocket hi h _ (fun c hc => inv2_roomJoin hi now (isLive_of_findSocket hc) r u n d)
  | webrtcOffer h o r t => exact inv2_onSocket hi h _ (fun _ _ => hi)
  | webrtcAnswer h a t => exact inv2_onSocket hi h _ (fun _ _ => hi)
  | webrtcIceCandidate h c t => exact inv2_onSocket hi h _ (fun _ _ => hi)
  | mediaToggle h r m e => exact inv2_onSocket hi h _ (fun c _ => inv2_mediaToggle hi c r m e)
  | chatMessage h r m n => exact inv2_onSocket hi h _ (fun _ _ => hi)
  | roomLeave h r => exact inv2_onSocket hi h _ (fun _ _ => inv2_handleUserLeaveRoom hi h r)
  | disconnect h => exact inv2_onSocket hi h _ (fun c _ => inv2_disconnect hi c)
  | kick r u => exact inv2_kick hi r u

theorem inv2_empty : Inv2 State.empty :=
  ⟨List.nodup_nil, fun r room hg => by simp [State.empty, mapGet] at hg,
    fun r room hg => by simp [State.empty, mapGet] at hg⟩

theorem reachable_inv2 {s : State} (hs : Reachable s) : Inv2 s := by
  induction hs with
  | empty => exact inv2_empty
  | step _ now e ih => exact inv2_step ih now e

theorem filter_socketId_values (m : List (String × Participant)) (h : String)
    (hm : ∀ e ∈ m, e.2.socketId = e.1) :
    (mapValues m).filter (fun p => decide (p.socketId ≠ h)) = mapValues (mapDelete m h) := by
  induction m with
  | nil => rfl
  | cons e rest ih =>
    have he := hm e (List.mem_cons_self _ _)
    have ih2 := ih (fun x hx => hm x (List.mem_cons_of_mem _ hx))
    simp only [mapValues, mapDelete] at ih2 ⊢
    simp only [List.map_cons, List.filter_cons, he]
    split
    · simp only [List.map_cons, ih2]
    · exact ih2

theorem filter_isRoomJoined_socketTo (s : State) (h : String) (r : Val) (m : Msg)
    (hm : ∀ k, isRoomJoined (k, m) = false) : (socketTo s h r m).filter isRoomJoined = [] := by
  rw [List.filter_eq_nil_iff]
  intro d hd
  simp only [socketTo, List.mem_map] at hd
  obtain ⟨k, _, rfl⟩ := hd
  simp [hm k]

theorem filter_isRoomJoined_ioTo (s : State) (r : Val) (m : Msg)
    (hm : ∀ k, isRoomJoined (k, m) = false) : (ioTo s r m).filter isRoomJoined = [] := by
  rw [List.filter_eq_nil_iff]
  intro d hd
  simp only [ioTo, List.mem_map] at hd
  obtain ⟨k, _, rfl⟩ := hd
  simp [hm k]

theorem mapKeys_mapSet_of_mem {κ ν : Type} [DecidableEq κ] {m : List (κ × ν)} {k : κ} (v : ν)
    (hk : k ∈ mapKeys m) : mapKeys (mapSet m k v) = mapKeys m := by
  induction m with
  | nil => simp [mapKeys] at hk
  | cons e rest ih =>
    obtain ⟨k0, v0⟩ := e
    by_cases hk0 : k0 = k
    · simp [mapSet, mapKeys, hk0]
    · have : k ∈ mapKeys rest := by
        simp only [mapKeys, List.map_cons, List.mem_cons] at hk
        rcases hk with hk | hk
        · exact absurd hk.symm hk0
        · exact hk
      have ih2 := ih this
      simp only [mapKeys] at ih2
      simp [mapSet, mapKeys, hk0, ih2]

theorem handleUserLeaveRoom_noop {s : State} {h : String} {r : Val}
    (hno : ∀ room, mapGet s.rooms r = some room → h ∉ mapKeys room.participants) :
    handleUserLeaveRoom s h r = (s, []) := by
  unfold handleUserLeaveRoom
  split
  · rfl
  · rename_i room hg
    have hn := hno room hg
    rw [← mapGet_eq_none_iff] at hn
    simp [hn]

theorem isLive_handleUserLeaveRoom (s : State) (h y : String) (r : Val) :
    isLive (handleUserLeaveRoom s h r).1 y = isLive s y := by
  rw [Bool.eq_iff_iff, isLive_iff, isLive_iff, handleUserLeaveRoom_socketIds]

theorem step_roomLeave_not_live {s : State} {h : String} (hl : isLive s h = false) (now : Nat)
    (r : Val) : step now s (.roomLeave h r) = (s, []) := by
  simpa [step] using onSocket_not_live hl (fun _ => handleUserLeaveRoom s h r)

theorem step_mediaToggle_live {s : State} {h : String} (hl : isLive s h = true) (now : Nat)
    (r m e : Val) :
    ∃ c, findSocket s h = some c ∧ c.id = h ∧
      step now s (.mediaToggle h r m e) = mediaToggle s c r m e := by
  obtain ⟨c, h1, h2, h3⟩ := onSocket_live hl (fun c => mediaToggle s c r m e)
  exact ⟨c, h1, h2, by simpa [step] using h3⟩

theorem step_mediaToggle_not_live {s : State} {h : String} (hl : isLive s h = false) (now : Nat)
    (r m e : Val) : step now s (.mediaToggle h r m e) = (s, []) := by
  simpa [step] using onSocket_not_live hl (fun c => mediaToggle s c r m e)

theorem socketReachable_reachable {s : State} (hs : SocketReachable s) : Reachable s := by
  induction hs with
  | empty => exact Reachable.empty
  | step _ now e _ ih => exact Reachable.step ih now e

theorem socketReachable_run {s : State} (hs : SocketReachable s) (es : List (Nat × Event))
    (hes : ∀ x ∈ es, x.2.isAdmin = false) : SocketReachable (run s es).1 := by
  induction es generalizing s with
  | nil => exact hs
  | cons e rest ih =>
    obtain ⟨now, e⟩ := e
    simp only [run]
    exact ih (SocketReachable.step hs now e (hes (now, e) (List.mem_cons_self _ _)))
      (fun x hx => hes x (List.mem_cons_of_mem _ hx))

theorem roomStatusOk_joinedRoom {base : Room}
    (hb : base.status = if base.participants.length ≥ 2 then "active" else "waiting")
    (now : Nat) (h : String) (u n d : Val) : RoomStatusOk (joinedRoom now base h u n d) := by
  have hlen := length_mapSet base.participants h
    ({ userId := u, userName := n, isDoctor := d, socketId := h, joinedAt := now, props := [] } :
      Participant)
  have hin : h ∈ mapKeys (joinedRoom now base h u n d).participants :=
    (joinedRoom_keys now base h u n d h).mpr (Or.inl rfl)
  have hpos : (joinedRoom now base h u n d).participants.length ≥ 1 := by
    cases hp : (joinedRoom now base h u n d).participants with
    | nil => rw [hp] at hin; simp [mapKeys] at hin
    | cons x xs => simp
  refine ⟨hpos, ?_⟩
  simp only [joinedRoom] at hpos ⊢
  split
  · rfl
  · rename_i hlt
    rw [hb]
    have hle : base.participants.length ≤ (mapSet base.participants h
        ({ userId := u, userName := n, isDoctor := d, socketId := h, joinedAt := now,
           props := [] } : Participant)).length := by
      rw [hlen]; split <;> omega
    have : ¬ base.participants.length ≥ 2 := by omega
    simp [this]

theorem roomStatusOk_leftRoom {room room1 : Room} {h : String} (hb : RoomStatusOk room)
    (hl : leftRoom h room = some room1) : RoomStatusOk room1 := by
  unfold leftRoom at hl
  split at hl
  · simp only at hl
    split at hl
    · cases hl
    · rename_i hne
      cases hl
      exact ⟨Nat.pos_of_ne_zero hne, rfl⟩
  · cases hl
    exact hb

theorem roomStatus_step {s : State}
    (hi : ∀ r room, mapGet s.rooms r = some room → RoomStatusOk room) (now : Nat) (e : Event)
    (he : e.isAdmin = false) :
    ∀ r room, mapGet (step now s e).1.rooms r = some room → RoomStatusOk room := by
  cases e with
  | connect h =>
    simp only [step]
    split <;> exact hi
  | userJoin h u n =>
    cases hl : isLive s h with
    | false =>
      have : step now s (.userJoin h u n) = (s, []) := by
        simpa [step] using onSocket_not_live hl (fun _ => userJoin s h u n)
      rw [this]; exact hi
    | true =>
      rw [step_userJoin_live hl]
      exact hi
  | roomJoin h r0 u n d =>
    cases hl : isLive s h with
    | false =>
      have : step now s (.roomJoin h r0 u n d) = (s, []) := by
        simpa [step] using onSocket_not_live hl (fun _ => roomJoin now s h r0 u n d)
      rw [this]; exact hi
    | true =>
      rw [step_roomJoin_live hl]
      intro r room hg
      by_cases hr : r = r0
      · subst hr
        rw [roomJoin_get_self] at hg
        cases hg
        apply roomStatusOk_joinedRoom
        cases ho : mapGet s.rooms r with
        | none => simp [newRoom]
        | some room0 => exact (hi r room0 ho).2
      · rw [roomJoin_get_of_ne now s h r0 u n d hr] at hg
        exact hi r room hg
  | webrtcOffer h o r0 t =>
    simp only [step, onSocket]
    split <;> exact hi
  | webrtcAnswer h a t =>
    simp only [step, onSocket]
    split <;> exact hi
  | webrtcIceCandidate h c t =>
    simp only [step, onSocket]
    split <;> exact hi
  | mediaToggle h r0 m e =>
    simp only [step, onSocket]
    split
    · exact hi
    · rename_i c hc
      rcases mediaToggle_state_explicit s c r0 m e with h1 | ⟨room0, p, hg0, hp, h1⟩
      · rw [h1]; exact hi
      · rw [h1]
        intro r room hg
        simp only at hg
        by_cases hr : r = r0
        · subst hr
          rw [mapGet_mapSet_self] at hg
          cases hg
          have hin : c.id ∈ mapKeys room0.participants := by
            rw [← mapGet_isSome_iff, hp]; rfl
          have hok := hi r room0 hg0
          simp only [RoomStatusOk, length_mapSet, hin, if_true]
          exact hok
        · rw [mapGet_mapSet_of_ne _ _ hr] at hg
          exact hi r room hg
  | chatMessage h r0 m n =>
    simp only [step, onSocket]
    split <;> exact hi
  | roomLeave h r0 =>
    cases hl : isLive s h with
    | false => rw [step_roomLeave_not_live hl]; exact hi
    | true =>
      rw [step_roomLeave_live hl]
      intro r room hg
      by_cases hr : r = r0
      · subst hr
        rw [handleUserLeaveRoom_get_self] at hg
        cases ho : mapGet s.rooms r with
        | none => simp [ho] at hg
        | some room0 =>
          rw [ho] at hg
          exact roomStatusOk_leftRoom (hi r room0 ho) hg
      · rw [handleUserLeaveRoom_get_of_ne s h hr] at hg
        exact hi r room hg
  | disconnect h =>
    cases hl : isLive s h with
    | false => rw [step_disconnect_not_live hl]; exact hi
    | true =>
      obtain ⟨c, _, _, hst⟩ := step_disconnect_live hl now
      rw [hst]
      intro r room hg
      rw [disconnect_get] at hg
      cases ho : mapGet s.rooms r with
      | none => simp [ho] at hg
      | some room0 =>
        rw [ho] at hg
        exact roomStatusOk_leftRoom (hi r room0 ho) hg
  | kick r0 u => simp [Event.isAdmin] at he

theorem socketReachable_roomStatus {s : State} (hs : SocketReachable s) :
    ∀ r room, mapGet s.rooms r = some room → RoomStatusOk room := by
  induction hs with
  | empty =>
    intro r room hg
    simp [State.empty, mapGet] at hg
  | step _ now e he ih => exact roomStatus_step ih now e he

theorem string_append_right_cancel {a b c : String} (h : a ++ c = b ++ c) : a = b := by
  have h2 : a.data ++ c.data = b.data ++ c.data := congrArg String.data h
  exact String.ext (List.append_cancel_right h2)

theorem entryOf_of_rooms_eq {s1 s2 : State} (h : s1.rooms = s2.rooms) (r : Val) (k : String) :
    entryOf s1 r k = entryOf s2 r k := by
  simp only [entryOf, h]

theorem leftRoom_entry {h1 h : String} {room room1 : Room} {p : Participant}
    (hl : leftRoom h1 room = some room1) (hp : mapGet room1.participants h = some p) :
    mapGet room.participants h = some p := by
  unfold leftRoom at hl
  split at hl
  · simp only at hl
    split at hl
    · cases hl
    · cases hl
      simp only at hp
      by_cases hh : h = h1
      · subst hh
        rw [mapGet_mapDelete_self] at hp
        cases hp
      · rw [mapGet_mapDelete_of_ne _ hh] at hp
        exact hp
  · cases hl
    exact hp

theorem entryOf_bind_leftRoom {s s1 : State} {h1 : String}
    (hget : ∀ r, mapGet s1.rooms r = (mapGet s.rooms r).bind (leftRoom h1) ∨
      mapGet s1.rooms r = mapGet s.rooms r)
    {r : Val} {h : String} {p : Participant} (hp : entryOf s1 r h = some p) :
    entryOf s r h = some p := by
  simp only [entryOf] at hp ⊢
  rcases hget r with hg | hg
  · rw [hg] at hp
    cases ho : mapGet s.rooms r with
    | none => simp [ho] at hp
    | some room0 =>
      rw [ho] at hp
      simp only [Option.some_bind] at hp ⊢
      cases hl : leftRoom h1 room0 with
      | none => simp [hl] at hp
      | some room1 =>
        rw [hl] at hp
        exact leftRoom_entry hl hp
  · rw [hg] at hp
    exact hp

/-- How the entry of `h` in `r` after a transition relates to the one before: it is
the same entry, or a fresh one without properties, or the former one with one
property set by a `media:toggle` of `h` on `r`. -/
theorem entryOf_step (now : Nat) (s : State) (ev : Event) (r : Val) (h : String)
    (p1 : Participant) (hp1 : entryOf (step now s ev).1 r h = some p1) :
    entryOf s r h = some p1 ∨ p1.props = [] ∨
    ∃ p m e, ev = .mediaToggle h r m e ∧ entryOf s r h = some p ∧
      p1 = { p with props := mapSet p.props (m.toJsString ++ "Enabled") e } := by
  cases ev with
  | connect h0 =>
    left
    simp only [step] at hp1
    split at hp1 <;> exact hp1
  | userJoin h0 u n =>
    left
    simp only [step, onSocket] at hp1
    split at hp1
    · exact hp1
    · exact hp1
  | roomJoin h0 r0 u n d =>
    cases hl : isLive s h0 with
    | false =>
      left
      have : step now s (.roomJoin h0 r0 u n d) = (s, []) := by
        simpa [step] using onSocket_not_live hl (fun _ => roomJoin now s h0 r0 u n d)
      rw [this] at hp1
      exact hp1
    | true =>
      rw [step_roomJoin_live hl] at hp1
      simp only [entryOf] at hp1 ⊢
      by_cases hr : r = r0
      · subst hr
        rw [roomJoin_get_self] at hp1
        simp only [Option.some_bind, joinedRoom] at hp1
        by_cases hh : h = h0
        · subst hh
          rw [mapGet_mapSet_self] at hp1
          cases hp1
          right; left; rfl
        · rw [mapGet_mapSet_of_ne _ _ hh] at hp1
          left
          cases ho : mapGet s.rooms r with
          | none =>
            rw [ho] at hp1
            simp [newRoom, mapGet] at hp1
          | some room0 =>
            rw [ho] at hp1
            simpa using hp1
      · rw [roomJoin_get_of_ne now s h0 r0 u n d hr] at hp1
        left; exact hp1
  | webrtcOffer h0 o r0 t =>
    left
    simp only [step, onSocket] at hp1
    split at hp1 <;> exact hp1
  | webrtcAnswer h0 a t =>
    left
    simp only [step, onSocket] at hp1
    split at hp1 <;> exact hp1
  | webrtcIceCandidate h0 c t =>
    left
    simp only [step, onSocket] at hp1
    split at hp1 <;> exact hp1
  | mediaToggle h0 r0 m e =>
    cases hl : isLive s h0 with
    | false =>
      left
      rw [step_mediaToggle_not_live hl] at hp1
      exact hp1
    | true =>
      obtain ⟨c, _, hid, hst⟩ := step_mediaToggle_live hl now r0 m e
      rw [hst] at hp1
      rcases mediaToggle_state_explicit s c r0 m e with h1 | ⟨room0, p, hg0, hp, h1⟩
      · left
        rw [h1] at hp1
        exact hp1
      · rw [h1] at hp1
        simp only [entryOf] at hp1 ⊢
        by_cases hr : r = r0
        · subst hr
          rw [mapGet_mapSet_self] at hp1
          simp only [Option.some_bind] at hp1
          by_cases hh : h = c.id
          · right; right
            rw [hh, mapGet_mapSet_self] at hp1
            cases hp1
            refine ⟨p, m, e, ?_, ?_, rfl⟩
            · rw [hh, hid]
            · rw [hg0, hh]
              exact hp
          · left
            rw [mapGet_mapSet_of_ne _ _ hh] at hp1
            rw [hg0]
            exact hp1
        · left
          rw [mapGet_mapSet_of_ne _ _ hr] at hp1
          exact hp1
  | chatMessage h0 r0 m n =>
    left
    simp only [step, onSocket] at hp1
    split at hp1 <;> exact hp1
  | roomLeave h0 r0 =>
    left
    cases hl : isLive s h0 with
    | false =>
      rw [step_roomLeave_not_live hl] at hp1
      exact hp1
    | true =>
      rw [step_roomLeave_live hl] at hp1
      refine @entryOf_bind_leftRoom s _ h0 ?_ r h p1 hp1
      intro r2
      by_cases hr : r2 = r0
      · left
        rw [hr]
        exact handleUserLeaveRoom_get_self s h0 r0
      · right
        exact handleUserLeaveRoom_get_of_ne s h0 hr
  | disconnect h0 =>
    left
    cases hl : isLive s h0 with
    | false =>
      rw [step_disconnect_not_live hl] at hp1
      exact hp1
    | true =>
      obtain ⟨c, _, _, hst⟩ := step_disconnect_live hl now
      rw [hst] at hp1
      exact entryOf_bind_leftRoom (fun r2 => Or.inl (disconnect_get s c r2)) hp1
  | kick r0 u =>
    left
    simp only [step] at hp1
    rcases disconnectUserFromRoom_state s r0 u with h1 | ⟨room0, sid, hg0, h1⟩
    · rw [h1] at hp1
      exact hp1
    · rw [h1] at hp1
      simp only [entryOf] at hp1 ⊢
      by_cases hr : r = r0
      · subst hr
        rw [mapGet_mapSet_self] at hp1
        simp only [Option.some_bind] at hp1
        rw [hg0]
        simp only [Option.some_bind]
        by_cases hh : h = sid
        · subst hh
          rw [mapGet_mapDelete_self] at hp1
          cases hp1
        · rw [mapGet_mapDelete_of_ne _ hh] at hp1
          exact hp1
      · rw [mapGet_mapSet_of_ne _ _ hr] at hp1
        exact hp1

theorem digitChar_isDigit (d : Nat) (hd : d < 10) : (Nat.digitChar d).isDigit = true := by
  interval_cases d <;> rfl

theorem toDigitsCore_isDigit (fuel n : Nat) (ds : List Char)
    (hds : ∀ c ∈ ds, c.isDigit = true) :
    ∀ c ∈ Nat.toDigitsCore 10 fuel n ds, c.isDigit = true := by
  induction fuel generalizing n ds with
  | zero =>
    intro c hc
    simp only [Nat.toDigitsCore] at hc
    exact hds c hc
  | succ fuel ih =>
    intro c hc
    simp only [Nat.toDigitsCore] at hc
    have hcons : ∀ x ∈ Nat.digitChar (n % 10) :: ds, x.isDigit = true := by
      intro x hx
      rcases List.mem_cons.mp hx with h1 | h1
      · rw [h1]
        exact digitChar_isDigit _ (Nat.mod_lt _ (by decide))
      · exact hds x h1
    split at hc
    · exact hcons c hc
    · exact ih _ _ hcons c hc

theorem nat_toString_isDigit (n : Nat) : ∀ c ∈ (toString n).data, c.isDigit = true := by
  intro c hc
  have : (toString n).data = Nat.toDigits 10 n := rfl
  rw [this] at hc
  exact toDigitsCore_isDigit _ _ [] (fun x hx => by cases hx) c hc

theorem int_toString_ne (n : Int) {t : String} {c : Char} {rest : List Char}
    (ht : t.data = c :: rest) (hc : c.isDigit = false) (hc2 : c ≠ '-') : toString n ≠ t := by
  intro heq
  cases n with
  | ofNat m =>
    have h1 : toString (Int.ofNat m) = toString m := rfl
    rw [h1] at heq
    have hd := nat_toString_isDigit m c (by rw [heq, ht]; exact List.mem_cons_self _ _)
    rw [hc] at hd
    cases hd
  | negSucc m =>
    have h1 : (toString (Int.negSucc m)).data = '-' :: (toString (m + 1)).data := rfl
    rw [heq, ht] at h1
    exact hc2 (List.cons.inj h1).1

theorem toJsString_eq_media {m : Val} {t : String} (ht : t = "audio" ∨ t = "video")
    (hm : m.toJsString = t) : m = .str t := by
  cases m with
  | undef =>
    rcases ht with ht | ht <;> (rw [ht] at hm; exact absurd hm (by decide))
  | null =>
    rcases ht with ht | ht <;> (rw [ht] at hm; exact absurd hm (by decide))
  | bool b =>
    cases b <;> rcases ht with ht | ht <;> (rw [ht] at hm; exact absurd hm (by decide))
  | num n =>
    exfalso
    simp only [Val.toJsString] at hm
    rcases ht with ht | ht
    · rw [ht] at hm
      exact @int_toString_ne n "audio" 'a' ['u', 'd', 'i', 'o'] rfl (by decide) (by decide) hm
    · rw [ht] at hm
      exact @int_toString_ne n "video" 'v' ['i', 'd', 'e', 'o'] rfl (by decide) (by decide) hm
  | str x =>
    simp only [Val.toJsString] at hm
    rw [hm]

/-! ## Administrative removal and the room invariants -/

/-- C2: after connection `a` joined `r1` alone and was removed by
`disconnectUserFromRoom`, room `r1` is still in the room store with zero
participants, so `getActiveRooms` reports a room with `participantCount` 0. -/
theorem C2_kick_leaves_empty_room :
    getActiveRooms (run State.empty kickLastTrace).1
      = [{ id := .str "r1", participantCount := 0, status := "waiting", createdAt := 1 }] := by
  decide

/-- C3: after `a` and `b` joined `r1` and `b` was removed by
`disconnectUserFromRoom`, room `r1` has one participant and still has status
`active`. -/
theorem C3_kick_keeps_active_status :
    getActiveRooms (run State.empty kickOneOfTwoTrace).1
      = [{ id := .str "r1", participantCount := 1, status := "active", createdAt := 1 }] := by
  decide

/-! ## Signalling relay -/

/-- C5 (counterexample): after `a` and then `b` registered user `x`, a
`webrtc:offer` from `b` whose target handle is `a` is still delivered to `a`. -/
theorem C5_superseded_handle_still_reachable :
    (step 3 (run State.empty supersedeTrace).1
        (.webrtcOffer "b" (.str "sdp") (.str "r1") (.str "a"))).2
      = [("a", .webrtcOffer (.str "sdp") "b" (.str "x") (.str "Xavier"))] := by
  decide

/-- C6: once `c` has joined a call room named by the handle of `b`, a
`webrtc:offer` from `a` with target handle `b` is delivered to both `b` and `c`. -/
theorem C6_offer_reaches_room_of_same_name :
    (step 2 (run State.empty eavesdropTrace).1
        (.webrtcOffer "a" (.str "sdp") (.str "r1") (.str "b"))).2
      = [("b", .webrtcOffer (.str "sdp") "a" .undef .undef),
         ("c", .webrtcOffer (.str "sdp") "a" .undef .undef)] := by
  decide

/-- C7: once the live connection `b` has joined and left a call room named by its
own handle, a `webrtc:offer` from `a` with target handle `b` is delivered to
nobody, although `b` is still live. -/
theorem C7_offer_lost_after_leaving_own_room :
    isLive (run State.empty ownRoomTrace).1 "b" = true ∧
    (step 4 (run State.empty ownRoomTrace).1
        (.webrtcOffer "a" (.str "sdp") (.str "r1") (.str "b"))).2 = [] := by
  decide

/-- C8 (counterexample): a `room:join` without `roomId` from connection `a` changes
the room store and produces no `error` event. -/
theorem C8_missing_roomId_not_rejected :
    (step 1 (run State.empty [(0, .connect "a")]).1
        (.roomJoin "a" .undef (.str "u1") (.str "Ann") (.bool false))).1.rooms
      ≠ (run State.empty [(0, .connect "a")]).1.rooms ∧
    (step 1 (run State.empty [(0, .connect "a")]).1
        (.roomJoin "a" .undef (.str "u1") (.str "Ann") (.bool false))).2
      = [("a", .roomJoined .undef [] 1)] := by
  decide

/-- C9: with connections `a` and `b` both in `r1` under user id `u`,
`disconnectUserFromRoom("r1", "u")` returns `true` and kicks `a`, and afterwards
`getRoomDetails("r1")` still lists the participant of `b` with user id `u`. -/
theorem C9_kick_removes_only_first_match :
    (disconnectUserFromRoom (run State.empty twoDevicesTrace).1 (.str "r1") (.str "u")).1 = true ∧
    (disconnectUserFromRoom (run State.empty twoDevicesTrace).1 (.str "r1") (.str "u")).2.2
      = [("a", .roomKicked "Disconnected by admin")] ∧
    (getRoomDetails
        (disconnectUserFromRoom (run State.empty twoDevicesTrace).1 (.str "r1") (.str "u")).2.1
        (.str "r1")).map (fun d => d.participants.map (fun p => (p.socketId, p.userId)))
      = some [("b", .str "u")] := by
  decide

theorem step_roomJoin_accepts_any_fields (now : Nat) (s : State) (h : String)
    (roomId userId userName isDoctor : Val) (hl : isLive s h = true) :
    (∀ x ∈ (step now s (.roomJoin h roomId userId userName isDoctor)).2,
        isErrorDelivery x = false) ∧
    (∃ others cnt, (h, Msg.roomJoined roomId others cnt)
        ∈ (step now s (.roomJoin h roomId userId userName isDoctor)).2) ∧
    (∃ room, mapGet (step now s (.roomJoin h roomId userId userName isDoctor)).1.rooms roomId
        = some room ∧
      mapGet room.participants h
        = some { userId := userId, userName := userName, isDoctor := isDoctor, socketId := h,
                 joinedAt := now, props := [] }) := by
  rw [step_roomJoin_live hl]
  refine ⟨roomJoin_no_error now s h roomId userId userName isDoctor,
    roomJoin_reply now s h roomId userId userName isDoctor hl, ?_⟩
  refine ⟨_, roomJoin_get_self now s h roomId userId userName isDoctor, ?_⟩
  simp [joinedRoom, mapGet_mapSet_self]

/-- C8 (amended): a `room:join` from a live connection `h` whose payload is an object
lacking `roomId`, `userId` or `userName` is not rejected: the listener does not
throw, the absent property is read as `undefined`, no `error` event is emitted, `h`
receives `room:joined` for that `roomId`, and the room keyed by that `roomId`
afterwards holds the participant entry of `h` with exactly the properties read from
the payload.  (An event with no payload object at all is not covered.) -/
theorem C8_roomJoin_handled_without_validation (now : Nat) (s : State) (h : String)
    (p : Payload) (hl : isLive s h = true)
    (_hmissing : mapGet p "roomId" = none ∨ mapGet p "userId" = none ∨
      mapGet p "userName" = none) :
    ∃ res, onRoomJoin now s h (some p) = .ok res ∧
      (∀ x ∈ res.2, isErrorDelivery x = false) ∧
      (∃ others cnt, (h, Msg.roomJoined (p.field "roomId") others cnt) ∈ res.2) ∧
      (∃ room, mapGet res.1.rooms (p.field "roomId") = some room ∧
        mapGet room.participants h
          = some { userId := p.field "userId", userName := p.field "userName",
                   isDoctor := p.field "isDoctor", socketId := h, joinedAt := now,
                   props := [] }) :=
  ⟨_, rfl, step_roomJoin_accepts_any_fields now s h (p.field "roomId") (p.field "userId")
    (p.field "userName") (p.field "isDoctor") hl⟩

/-- C8 (witness): the amended statement at the one-connection state and a
`room:join` whose payload object has no `roomId`. -/
theorem C8_roomJoin_handled_without_validation_witness :
    isLive (run State.empty [(0, .connect "a")]).1 "a" = true ∧
    mapGet joinPayloadWithoutRoomId "roomId" = none ∧
    ∃ res, onRoomJoin 1 (run State.empty [(0, .connect "a")]).1 "a"
        (some joinPayloadWithoutRoomId) = .ok res ∧
      (∀ x ∈ res.2, isErrorDelivery x = false) ∧
      (∃ others cnt, (("a" : String), Msg.roomJoined (joinPayloadWithoutRoomId.field "roomId")
        others cnt) ∈ res.2) ∧
      (∃ room, mapGet res.1.rooms (joinPayloadWithoutRoomId.field "roomId") = some room ∧
        mapGet room.participants "a"
          = some { userId := joinPayloadWithoutRoomId.field "userId",
                   userName := joinPayloadWithoutRoomId.field "userName",
                   isDoctor := joinPayloadWithoutRoomId.field "isDoctor", socketId := "a",
                   joinedAt := 1, props := [] }) :=
  ⟨by decide, by decide,
   C8_roomJoin_handled_without_validation 1 (run State.empty [(0, .connect "a")]).1 "a"
     joinPayloadWithoutRoomId (by decide) (Or.inl (by decide))⟩

/-- C5 (amended): when `h1` and then a different connection `h2` register the same
user id `x`, the registry maps `x` to `h2`; but forwarding never consults the
registry, so in every later state a `webrtc:offer`, `webrtc:answer` or
`webrtc:ice-candidate` from a live connection `a` whose target handle is `h1` is
delivered to `h1`, as long as `h1` is still in the Socket.IO room named by its
own handle. -/
theorem C5_superseded_handle_stays_addressable (s : State) (t1 t2 t3 : Nat)
    (h1 h2 a : String) (x n1 n2 p rid : Val) (es : List (Nat × Event))
    (hl1 : isLive s h1 = true) (hl2 : isLive s h2 = true) (_hne : h1 ≠ h2)
    (ha : isLive (run s ([(t1, .userJoin h1 x n1), (t2, .userJoin h2 x n2)] ++ es)).1 a = true)
    (hown : h1 ∈ inRoom (run s ([(t1, .userJoin h1 x n1), (t2, .userJoin h2 x n2)] ++ es)).1
      (.str h1)) :
    mapGet (run s [(t1, .userJoin h1 x n1), (t2, .userJoin h2 x n2)]).1.userSockets x = some h2 ∧
    ∃ c, findSocket (run s ([(t1, .userJoin h1 x n1), (t2, .userJoin h2 x n2)] ++ es)).1 a
        = some c ∧
      (h1, Msg.webrtcOffer p a c.userId c.userName)
        ∈ (step t3 (run s ([(t1, .userJoin h1 x n1), (t2, .userJoin h2 x n2)] ++ es)).1
            (.webrtcOffer a p rid (.str h1))).2 ∧
      (h1, Msg.webrtcAnswer p a)
        ∈ (step t3 (run s ([(t1, .userJoin h1 x n1), (t2, .userJoin h2 x n2)] ++ es)).1
            (.webrtcAnswer a p (.str h1))).2 ∧
      (h1, Msg.webrtcIceCandidate p a)
        ∈ (step t3 (run s ([(t1, .userJoin h1 x n1), (t2, .userJoin h2 x n2)] ++ es)).1
            (.webrtcIceCandidate a p (.str h1))).2 := by
  constructor
  · have hl2b : isLive (userJoin s h1 x n1).1 h2 = true := by rw [isLive_userJoin]; exact hl2
    simp only [run]
    rw [step_userJoin_live hl1, step_userJoin_live hl2b]
    exact userJoin_registry _ _ _ _
  · generalize (run s ([(t1, .userJoin h1 x n1), (t2, .userJoin h2 x n2)] ++ es)).1 = s3 at ha hown
    unfold isLive at ha
    cases hc : findSocket s3 a with
    | none => simp [hc] at ha
    | some c =>
      have hid : c.id = a := findSocket_id hc
      refine ⟨c, rfl, ?_, ?_, ?_⟩
      · simp only [step, onSocket, hc, webrtcOffer, hid]
        exact mem_ioTo hown _
      · simp only [step, onSocket, hc, webrtcAnswer, hid]
        exact mem_ioTo hown _
      · simp only [step, onSocket, hc, webrtcIceCandidate, hid]
        exact mem_ioTo hown _

/-- C5 (witness): the amended statement with `a` then `b` registering user `x` and
`b` sending to the handle of `a`. -/
theorem C5_superseded_handle_stays_addressable_witness :
    mapGet (run (run State.empty [(0, .connect "a"), (0, .connect "b")]).1
        [(1, .userJoin "a" (.str "x") (.str "Xavier")),
         (2, .userJoin "b" (.str "x") (.str "Xavier"))]).1.userSockets (.str "x") = some "b" :=
  (C5_superseded_handle_stays_addressable
    (run State.empty [(0, .connect "a"), (0, .connect "b")]).1 1 2 3 "a" "b" "b"
    (.str "x") (.str "Xavier") (.str "Xavier") (.str "sdp") (.str "r1") []
    (by decide) (by decide) (by decide) (by decide) (by decide)).1

/-- C4: in every reachable state, after the transport disconnect of connection `h`:
`h` is a participant of no stored room; every room that contained `h` together with
other participants is still stored, its participants being the former ones without
`h` (one fewer); every room whose only participant was `h` is absent from
`getActiveRooms()`; and every room that did not contain `h` is stored unchanged. -/
theorem C4_disconnect_equals_leave (s : State) (hs : Reachable s) (now : Nat) (h : String) :
    (∀ e ∈ (step now s (.disconnect h)).1.rooms, h ∉ mapKeys e.2.participants) ∧
    (∀ e ∈ s.rooms, h ∈ mapKeys e.2.participants → e.2.participants.length ≥ 2 →
      ∃ room1, (e.1, room1) ∈ (step now s (.disconnect h)).1.rooms ∧
        room1.participants = mapDelete e.2.participants h ∧
        room1.participants.length + 1 = e.2.participants.length) ∧
    (∀ e ∈ s.rooms, mapKeys e.2.participants = [h] →
      ∀ x ∈ getActiveRooms (step now s (.disconnect h)).1, x.id ≠ e.1) ∧
    (∀ e ∈ s.rooms, h ∉ mapKeys e.2.participants → e ∈ (step now s (.disconnect h)).1.rooms) := by
  have hi := reachable_inv hs
  have hi2 : Inv (step now s (.disconnect h)).1 := inv_step hi now _
  refine ⟨?_, ?_, ?_, ?_⟩
  · intro e he
    have hg := (mem_rooms_iff hi2 e).mp he
    rw [step_disconnect_get hi] at hg
    cases ho : mapGet s.rooms e.1 with
    | none => simp [ho] at hg
    | some room0 =>
      rw [ho] at hg
      exact @leftRoom_not_mem h room0 e.2 hg
  · intro e he hm hlen
    have hg := (mem_rooms_iff hi e).mp he
    obtain ⟨room1, hl, hp, hlen1⟩ := leftRoom_of_mem (hi.rooms.2 e.1 e.2 hg).1 hm hlen
    refine ⟨room1, ?_, hp, hlen1⟩
    apply mem_of_mapGet
    rw [step_disconnect_get hi, hg]
    exact hl
  · intro e he hk x hx hid
    have hg := (mem_rooms_iff hi e).mp he
    have hnone : mapGet (step now s (.disconnect h)).1.rooms e.1 = none := by
      rw [step_disconnect_get hi, hg]
      exact leftRoom_of_only hk
    rw [mapGet_eq_none_iff] at hnone
    apply hnone
    simp only [getActiveRooms, List.mem_map] at hx
    obtain ⟨e2, he2, rfl⟩ := hx
    simp only at hid
    rw [← hid]
    exact List.mem_map.mpr ⟨e2, he2, rfl⟩
  · intro e he hn
    have hg := (mem_rooms_iff hi e).mp he
    have : mapGet (step now s (.disconnect h)).1.rooms e.1 = some e.2 := by
      rw [step_disconnect_get hi, hg]
      exact leftRoom_of_not_mem hn
    exact mem_of_mapGet this

/-- C4 (witness): the statement at the state where `a` and `b` are both in `r1`,
for the disconnect of `a`. -/
theorem C4_disconnect_equals_leave_witness :
    Reachable (run State.empty twoDevicesTrace).1 ∧
    ∀ e ∈ (step 9 (run State.empty twoDevicesTrace).1 (.disconnect "a")).1.rooms,
      "a" ∉ mapKeys e.2.participants :=
  ⟨reachable_run Reachable.empty twoDevicesTrace,
   (C4_disconnect_equals_leave (run State.empty twoDevicesTrace).1
    (reachable_run Reachable.empty twoDevicesTrace) 9 "a").1⟩

/-- C10: in every reachable state `disconnectUserFromRoom(roomId, userId)` returns
`true` exactly when the room is stored and has a participant with that user id;
when it returns `false` the whole state is unchanged and no event is emitted. -/
theorem C10_kick_succeeds_iff_participant (s : State) (hs : Reachable s) (roomId userId : Val) :
    ((disconnectUserFromRoom s roomId userId).1 = true ↔
      ∃ room, mapGet s.rooms roomId = some room ∧
        ∃ p ∈ mapValues room.participants, p.userId = userId) ∧
    ((disconnectUserFromRoom s roomId userId).1 = false →
      (disconnectUserFromRoom s roomId userId).2.1 = s ∧
      (disconnectUserFromRoom s roomId userId).2.2 = []) := by
  have hi := reachable_inv hs
  refine ⟨⟨?_, ?_⟩, ?_⟩
  · intro ht
    obtain ⟨room, sid, p, hg, hm, hu, _⟩ := disconnectUserFromRoom_true s roomId userId ht
    exact ⟨room, hg, p, List.mem_map.mpr ⟨(sid, p), hm, rfl⟩, hu⟩
  · rintro ⟨room, hg, p, hp, hu⟩
    simp only [disconnectUserFromRoom, hg]
    apply kickLoop_true_of_live
    · intro e he
      rw [isLive_iff]
      exact (hi.rooms.2 roomId room hg).2 e.1 (List.mem_map.mpr ⟨e, he, rfl⟩)
    · simp only [mapValues, List.mem_map] at hp
      obtain ⟨e, he, rfl⟩ := hp
      exact ⟨e, he, hu⟩
  · intro hf
    rw [disconnectUserFromRoom_false s roomId userId hf]
    exact ⟨rfl, rfl⟩

/-- C10 (witness): the statement at the state where `a` joined `r1` as `u1` and was
then kicked, which leaves `r1` stored without participants. -/
theorem C10_kick_succeeds_iff_participant_witness :
    Reachable (run State.empty kickLastTrace).1 ∧
    ((disconnectUserFromRoom (run State.empty kickLastTrace).1 (.str "r1") (.str "u1")).1 = true ↔
      ∃ room, mapGet (run State.empty kickLastTrace).1.rooms (.str "r1") = some room ∧
        ∃ p ∈ mapValues room.participants, p.userId = .str "u1") :=
  ⟨reachable_run Reachable.empty kickLastTrace,
   (C10_kick_succeeds_iff_participant (run State.empty kickLastTrace).1
    (reachable_run Reachable.empty kickLastTrace) (.str "r1") (.str "u1")).1⟩

/-- C1: starting from a state in which room `r` is not stored, for every sequence
`ops` of `room:join(r)` / `room:leave(r)` events issued by live connections and
every prefix of it: with `S` the set of handles whose most recent event in the
prefix is a join, if `S` is non-empty then room `r` is stored, its participant keys
are distinct and are exactly `S`, and its participant count is `|S|`; if `S` is
empty then `r` is not a key of the room store. -/
theorem C1_join_leave_tracks_membership (s : State) (r : Val) (ops : List (Nat × RoomOp))
    (hr : mapGet s.rooms r = none) (hlive : ∀ o ∈ ops, isLive s o.2.handle = true) (k : Nat) :
    ((joinedSet (ops.take k)).Nonempty →
      ∃ room, mapGet (run s (roomTrace r (ops.take k))).1.rooms r = some room ∧
        (mapKeys room.participants).Nodup ∧
        (mapKeys room.participants).toFinset = joinedSet (ops.take k) ∧
        room.participants.length = (joinedSet (ops.take k)).card) ∧
    (joinedSet (ops.take k) = ∅ → r ∉ mapKeys (run s (roomTrace r (ops.take k))).1.rooms) := by
  have hlive2 : ∀ o ∈ ops.take k, isLive s o.2.handle = true :=
    fun o ho => hlive o (List.mem_of_mem_take ho)
  have ht := (run_roomTrace_tracks s r hr (ops.take k) hlive2).2
  constructor
  · rintro ⟨x, hx⟩
    rw [mem_joinedSet] at hx
    cases hg : mapGet (run s (roomTrace r (ops.take k))).1.rooms r with
    | none =>
      rw [hg] at ht
      simp only [RoomTracks] at ht
      rw [ht x] at hx
      cases hx
    | some room =>
      rw [hg] at ht
      obtain ⟨hnd, _, hmem⟩ := ht
      have hset : (mapKeys room.participants).toFinset = joinedSet (ops.take k) := by
        ext y
        rw [List.mem_toFinset, mem_joinedSet, hmem]
      refine ⟨room, rfl, hnd, hset, ?_⟩
      rw [← hset, List.toFinset_card_of_nodup hnd]
      simp [mapKeys]
  · intro hempty
    rw [← mapGet_eq_none_iff]
    cases hg : mapGet (run s (roomTrace r (ops.take k))).1.rooms r with
    | none => rfl
    | some room =>
      rw [hg] at ht
      obtain ⟨_, hne, hmem⟩ := ht
      exfalso
      cases hk : mapKeys room.participants with
      | nil => exact hne hk
      | cons y ys =>
        have hy : y ∈ joinedSet (ops.take k) := by
          rw [mem_joinedSet, ← hmem, hk]
          exact List.mem_cons_self _ _
        rw [hempty] at hy
        simp at hy

/-- C1 (witness): the statement for `a` joins, `b` joins, `a` leaves on room `r1`,
after all three events. -/
theorem C1_join_leave_tracks_membership_witness :
    mapGet (run State.empty [(0, .connect "a"), (0, .connect "b")]).1.rooms (.str "r1") = none ∧
    ((joinedSet (joinJoinLeaveOps.take 3)).Nonempty →
      ∃ room, mapGet (run (run State.empty [(0, .connect "a"), (0, .connect "b")]).1
          (roomTrace (.str "r1") (joinJoinLeaveOps.take 3))).1.rooms (.str "r1") = some room ∧
        (mapKeys room.participants).Nodup ∧
        (mapKeys room.participants).toFinset = joinedSet (joinJoinLeaveOps.take 3) ∧
        room.participants.length = (joinedSet (joinJoinLeaveOps.take 3)).card) :=
  ⟨by decide,
   (C1_join_leave_tracks_membership (run State.empty [(0, .connect "a"), (0, .connect "b")]).1
      (.str "r1") joinJoinLeaveOps (by decide) (by decide) 3).1⟩

/-- C11: after `a` and `b` joined `r1` and both were removed by
`disconnectUserFromRoom`, the emptied room is still stored with status `active`;
when `c` then joins `r1` it is alone (participant count 1) and the room status is
`active`, not `waiting`. -/
theorem C11_lone_joiner_in_stale_active_room :
    (getRoomDetails (step 5 (run State.empty kickBothTrace).1
        (.roomJoin "c" (.str "r1") (.str "u3") (.str "Carl") (.bool false))).1 (.str "r1")).map
        (fun d => (d.participants.map (fun p => p.socketId), d.participantCount, d.status))
      = some (["c"], 1, "active") := by
  decide

/-- C15: room `r1` was created at time 1 and emptied by `disconnectUserFromRoom`; a
`room:join` on `r1` at time 7 finds the old room object, so `createdAt` is still 1
rather than the time of that join. -/
theorem C15_join_after_kick_reuses_room :
    (getRoomDetails (step 7 (run State.empty kickLastTrace).1
        (.roomJoin "a" (.str "r1") (.str "u1") (.str "Ann") (.bool false))).1 (.str "r1")).map
        (fun d => (d.participants.map (fun p => p.socketId), d.createdAt))
      = some (["a"], 1) := by
  decide

/-- C16: with `a` and `b` in `r1` and `b` also in a call room named by the handle
of `a`, the `room:leave` of `a` on `r1` delivers no `user:left` to the remaining
member `b`: the only delivery is the `room:status` event. -/
theorem C16_user_left_not_delivered_to_namesake_member :
    (step 4 (run State.empty namesakeRoomTrace).1 (.roomLeave "a" (.str "r1"))).2
      = [("b", .roomStatus "waiting")] ∧
    (getRoomDetails (run State.empty namesakeRoomTrace).1 (.str "r1")).map
        (fun d => d.participants.map (fun p => p.socketId)) = some ["a", "b"] := by
  decide

/-- C17 (counterexample): connection `b`, which is not a participant of `r1`, sends
`chat:message` naming `r1`, and the message is delivered to the participant `a`. -/
theorem C17_chat_from_outsider_is_delivered :
    (step 2 (run State.empty outsiderTrace).1
        (.chatMessage "b" (.str "r1") (.str "hello") (.str "Bob"))).2
      = [("a", .chatMessage (.str "hello") (.str "Bob") .undef 2)] := by
  decide

/-- C19: after `a` and then `b` registered user `x`, the disconnect of the
superseded connection `a` deletes the registry entry of `x`, although `b` is still
connected: the registry is empty afterwards. -/
theorem C19_disconnect_of_superseded_unregisters_newer :
    (run State.empty supersedeThenCloseTrace).1.userSockets = [] ∧
    isLive (run State.empty supersedeThenCloseTrace).1 "b" = true ∧
    mapGet (run State.empty supersedeTrace).1.userSockets (.str "x") = some "b" := by
  decide

/-- C12: in every reachable state, a `room:join` on room `r` by a live connection
`h` produces exactly one `room:joined` event, sent to `h`; it carries `roomId` `r`,
a participants list that is exactly the post-join participant entries of `r`
without the entry keyed by `h`, and a `participantCount` equal to the length of
that list plus one, which is the post-join participant count. -/
theorem C12_room_joined_reply (s : State) (hs : Reachable s) (now : Nat) (h : String)
    (r u n d : Val) (hl : isLive s h = true) :
    ∃ room, mapGet (step now s (.roomJoin h r u n d)).1.rooms r = some room ∧
      (step now s (.roomJoin h r u n d)).2.filter isRoomJoined
        = [(h, .roomJoined r (mapValues (mapDelete room.participants h))
              ((mapValues (mapDelete room.participants h)).length + 1))] ∧
      (mapValues (mapDelete room.participants h)).length + 1 = room.participants.length := by
  have hi : Inv (step now s (.roomJoin h r u n d)).1 := inv_step (reachable_inv hs) now _
  have hi2 : Inv2 (step now s (.roomJoin h r u n d)).1 := inv2_step (reachable_inv2 hs) now _
  rw [step_roomJoin_live hl] at hi hi2 ⊢
  have hg := roomJoin_get_self now s h r u n d
  have hl2 : isLive (socketJoin s h r) h = true := by rw [isLive_socketJoin]; exact hl
  have hin : h ∈ mapKeys (joinedRoom now ((mapGet s.rooms r).getD (newRoom r now)) h u n d).participants :=
    (joinedRoom_keys now _ h u n d h).mpr (Or.inl rfl)
  have hlen := length_mapDelete (hi.rooms.2 r _ hg).1 hin
  have hlen2 : (mapValues (mapDelete
      (joinedRoom now ((mapGet s.rooms r).getD (newRoom r now)) h u n d).participants h)).length + 1
      = (joinedRoom now ((mapGet s.rooms r).getD (newRoom r now)) h u n d).participants.length := by
    simpa [mapValues] using hlen
  have hfirst : ∀ cnt, (socketTo (socketJoin s h r) h r (.userJoined u n d h cnt)).filter
      isRoomJoined = [] :=
    fun cnt => filter_isRoomJoined_socketTo _ _ _ _ (fun _ => rfl)
  refine ⟨_, hg, ?_, hlen2⟩
  rw [roomJoin_deliveries, List.filter_append, List.filter_append, hfirst,
    socketEmit_live hl2, filter_socketId_values _ h (hi2.roomOk r _ hg).1, hlen2]
  have hlast : (if (joinedRoom now ((mapGet s.rooms r).getD (newRoom r now)) h u n d).participants.length ≥ 2
      then ioTo (socketJoin s h r) r (.roomStatus "active") else []).filter isRoomJoined = [] := by
    split
    · exact filter_isRoomJoined_ioTo _ _ _ (fun _ => rfl)
    · rfl
  rw [hlast]
  simp [isRoomJoined]

/-- C12 (witness): the statement for `b` joining `r1` a second time in the state
where `a` and `b` are both in `r1`. -/
theorem C12_room_joined_reply_witness :
    isLive (run State.empty twoDevicesTrace).1 "b" = true ∧
    ∃ room, mapGet (step 3 (run State.empty twoDevicesTrace).1
        (.roomJoin "b" (.str "r1") (.str "u") (.str "Uma") (.bool false))).1.rooms (.str "r1")
        = some room ∧
      (step 3 (run State.empty twoDevicesTrace).1
        (.roomJoin "b" (.str "r1") (.str "u") (.str "Uma") (.bool false))).2.filter isRoomJoined
        = [("b", .roomJoined (.str "r1") (mapValues (mapDelete room.participants "b"))
              ((mapValues (mapDelete room.participants "b")).length + 1))] ∧
      (mapValues (mapDelete room.participants "b")).length + 1 = room.participants.length :=
  ⟨by decide,
   C12_room_joined_reply (run State.empty twoDevicesTrace).1
     (reachable_run Reachable.empty twoDevicesTrace) 3 "b" (.str "r1") (.str "u") (.str "Uma")
     (.bool false) (by decide)⟩

/-- C13: in every reachable state in which connection `h` is already a participant
of room `r`, a further `room:join(r)` by `h` keeps the participant count, the
status and the key order of `r`, keeps the entry of every other participant, and
leaves one entry keyed by `h` (keys stay distinct) carrying the `userId`,
`userName` and `isDoctor` of the new payload. -/
theorem C13_rejoin_updates_in_place (s : State) (hs : Reachable s) (now : Nat) (h : String)
    (r u n d : Val) (room : Room) (hg : mapGet s.rooms r = some room)
    (hin : h ∈ mapKeys room.participants) :
    ∃ room1, mapGet (step now s (.roomJoin h r u n d)).1.rooms r = some room1 ∧
      room1.participants.length = room.participants.length ∧
      room1.status = room.status ∧
      mapKeys room1.participants = mapKeys room.participants ∧
      (mapKeys room1.participants).Nodup ∧
      (∀ k, k ≠ h → mapGet room1.participants k = mapGet room.participants k) ∧
      (∃ p, mapGet room1.participants h = some p ∧ p.userId = u ∧ p.userName = n ∧
        p.isDoctor = d) := by
  have hi := reachable_inv hs
  have hi2 := reachable_inv2 hs
  have hl : isLive s h = true := (isLive_iff s h).mpr ((hi.rooms.2 r room hg).2 h hin)
  rw [step_roomJoin_live hl]
  have hg1 := roomJoin_get_self now s h r u n d
  rw [hg] at hg1
  simp only [Option.getD_some] at hg1
  have hlen : (joinedRoom now room h u n d).participants.length = room.participants.length := by
    simp only [joinedRoom, length_mapSet, hin, if_true]
  have hkeys : mapKeys (joinedRoom now room h u n d).participants = mapKeys room.participants := by
    simp only [joinedRoom]
    exact mapKeys_mapSet_of_mem _ hin
  refine ⟨_, hg1, hlen, ?_, hkeys, ?_, ?_, ?_⟩
  · have hlen2 := hlen
    simp only [joinedRoom] at hlen2 ⊢
    split
    · rename_i h2
      rw [hlen2] at h2
      exact ((hi2.roomOk r room hg).2 h2).symm
    · rfl
  · rw [hkeys]; exact (hi.rooms.2 r room hg).1
  · intro k hk
    simp only [joinedRoom]
    exact mapGet_mapSet_of_ne _ _ hk
  · refine ⟨{ userId := u, userName := n, isDoctor := d, socketId := h, joinedAt := now,
               props := [] }, ?_, rfl, rfl, rfl⟩
    simp only [joinedRoom]
    exact mapGet_mapSet_self _ _ _

/-- C13 (witness): the statement for `b` joining `r1` again under a new name in the
state where `a` and `b` are both in `r1`. -/
theorem C13_rejoin_updates_in_place_witness :
    Reachable (run State.empty twoDevicesTrace).1 ∧
    ∃ room1, mapGet (step 3 (run State.empty twoDevicesTrace).1
        (.roomJoin "b" (.str "r1") (.str "v") (.str "Vera") (.bool true))).1.rooms (.str "r1")
        = some room1 ∧
      room1.participants.length = 2 ∧ room1.status = "active" ∧
      ∃ p, mapGet room1.participants "b" = some p ∧ p.userId = .str "v" := by
  refine ⟨reachable_run Reachable.empty twoDevicesTrace, ?_⟩
  obtain ⟨room1, h1, h2, h3, _, _, _, p, h7, h8, _⟩ :=
    C13_rejoin_updates_in_place (run State.empty twoDevicesTrace).1
      (reachable_run Reachable.empty twoDevicesTrace) 3 "b" (.str "r1") (.str "v") (.str "Vera")
      (.bool true)
      ((mapGet (run State.empty twoDevicesTrace).1.rooms (.str "r1")).getD (newRoom .undef 0))
      (by decide) (by decide)
  refine ⟨room1, h1, ?_, ?_, p, h7, h8⟩
  · rw [h2]; decide
  · rw [h3]; decide

/-- C14: for every state, room `r` and connection `h`, handling `room:leave(r)` from
`h` a second time right after the first changes nothing at all (so no participant
count changes) and emits no event; and a `room:leave` naming a room that is not
stored changes nothing and emits nothing. -/
theorem C14_leave_twice_is_leave_once (now1 now2 : Nat) (s : State) (h : String) (r : Val) :
    step now2 (step now1 s (.roomLeave h r)).1 (.roomLeave h r)
      = ((step now1 s (.roomLeave h r)).1, []) ∧
    (mapGet s.rooms r = none → step now1 s (.roomLeave h r) = (s, [])) := by
  constructor
  · cases hl : isLive s h with
    | false =>
      rw [step_roomLeave_not_live hl]
      exact step_roomLeave_not_live hl now2 r
    | true =>
      rw [step_roomLeave_live hl]
      have hl2 : isLive (handleUserLeaveRoom s h r).1 h = true := by
        rw [isLive_handleUserLeaveRoom]; exact hl
      rw [step_roomLeave_live hl2]
      apply handleUserLeaveRoom_noop
      intro room hg
      rw [handleUserLeaveRoom_get_self] at hg
      cases ho : mapGet s.rooms r with
      | none => simp [ho] at hg
      | some room0 =>
        rw [ho] at hg
        exact @leftRoom_not_mem h room0 room hg
  · intro hg
    cases hl : isLive s h with
    | false => exact step_roomLeave_not_live hl now1 r
    | true =>
      rw [step_roomLeave_live hl]
      apply handleUserLeaveRoom_noop
      intro room hg2
      rw [hg] at hg2
      cases hg2

/-- C17 (amended): in every reachable state a `chat:message` naming room `r` from
any live connection `h`, whether or not `h` is a participant of `r`, is delivered
once to each connection in the Socket.IO room `r` and to no other connection, and
every participant of `r` is among the receivers. -/
theorem C17_chat_is_relayed_to_the_whole_room (s : State) (hs : Reachable s) (now : Nat)
    (h : String) (r m n : Val) (hl : isLive s h = true) :
    ∃ c, findSocket s h = some c ∧
      (step now s (.chatMessage h r m n)).2
        = (inRoom s r).map (fun k => (k, Msg.chatMessage m n c.userId now)) ∧
      (inRoom s r).Nodup ∧
      ∀ room, mapGet s.rooms r = some room → ∀ k ∈ mapKeys room.participants,
        (k, Msg.chatMessage m n c.userId now) ∈ (step now s (.chatMessage h r m n)).2 := by
  have hi := reachable_inv hs
  have hi2 := reachable_inv2 hs
  unfold isLive at hl
  cases hc : findSocket s h with
  | none => simp [hc] at hl
  | some c =>
    have hstep : (step now s (.chatMessage h r m n)).2
        = (inRoom s r).map (fun k => (k, Msg.chatMessage m n c.userId now)) := by
      simp only [step, onSocket, hc, chatMessage, ioTo]
    refine ⟨c, rfl, hstep, ?_, ?_⟩
    · have hsub : List.Sublist (inRoom s r) (socketIds s) := by
        simp only [inRoom, socketIds]
        exact (List.filter_sublist _).map _
      exact hsub.nodup hi.socketsNodup
    · intro room hg k hk
      rw [hstep]
      exact List.mem_map.mpr ⟨k, hi2.inAdapterRoom r room hg k hk, rfl⟩

/-- C17 (witness): the amended statement for the chat message that `b`, not a
participant, sends to `r1` where `a` is the only participant. -/
theorem C17_chat_is_relayed_to_the_whole_room_witness :
    isLive (run State.empty outsiderTrace).1 "b" = true ∧
    mapGet (run State.empty outsiderTrace).1.rooms (.str "r1") ≠ none ∧
    ∃ c, findSocket (run State.empty outsiderTrace).1 "b" = some c ∧
      (step 2 (run State.empty outsiderTrace).1
          (.chatMessage "b" (.str "r1") (.str "hello") (.str "Bob"))).2
        = (inRoom (run State.empty outsiderTrace).1 (.str "r1")).map
            (fun k => (k, Msg.chatMessage (.str "hello") (.str "Bob") c.userId 2)) := by
  obtain ⟨c, h1, h2, _⟩ := C17_chat_is_relayed_to_the_whole_room
    (run State.empty outsiderTrace).1 (reachable_run Reachable.empty outsiderTrace) 2 "b"
    (.str "r1") (.str "hello") (.str "Bob") (by decide)
  exact ⟨by decide, by decide, c, h1, h2⟩

/-- C18: every `chat:message` event the coordinator emits for an inbound payload `p`
of connection `h` carries the `message` and `senderName` of `p`, the `userId` the
connection registered (`socket.userId`) as `senderId`, and the coordinator clock
`now` as timestamp; and a payload `q` that agrees with `p` on `roomId`, `message`
and `senderName` produces, at the same clock value, the same state and the same
outbound events whatever its other properties are. -/
theorem C18_chat_ignores_other_client_fields (now : Nat) (s : State) (h : String)
    (p q : Payload) (hroom : q.field "roomId" = p.field "roomId")
    (hmsg : q.field "message" = p.field "message")
    (hname : q.field "senderName" = p.field "senderName") :
    onChatMessage now s h q = onChatMessage now s h p ∧
    ∀ x ∈ (onChatMessage now s h p).2, ∃ c, findSocket s h = some c ∧
      x.2 = Msg.chatMessage (p.field "message") (p.field "senderName") c.userId now := by
  constructor
  · simp only [onChatMessage, hroom, hmsg, hname]
  · intro x hx
    simp only [onChatMessage, step, onSocket] at hx
    cases hc : findSocket s h with
    | none => simp [hc] at hx
    | some c =>
      simp only [hc, chatMessage, ioTo, List.mem_map] at hx
      obtain ⟨k, _, rfl⟩ := hx
      exact ⟨c, rfl, rfl⟩

/-- C18 (witness): a payload with a forged `timestamp` and `senderId` produces the
same outbound events as the plain one, from connection `a` in room `r1`. -/
theorem C18_chat_ignores_other_client_fields_witness :
    onChatMessage 5 (run State.empty outsiderTrace).1 "a" chatPayloadWithExtras
      = onChatMessage 5 (run State.empty outsiderTrace).1 "a" chatPayloadPlain ∧
    (onChatMessage 5 (run State.empty outsiderTrace).1 "a" chatPayloadPlain).2
      = [("a", .chatMessage (.str "hello") (.str "Ann") .undef 5)] :=
  ⟨(C18_chat_ignores_other_client_fields 5 (run State.empty outsiderTrace).1 "a"
      chatPayloadPlain chatPayloadWithExtras (by decide) (by decide) (by decide)).1,
   by decide⟩

/-- C20: in every reachable state, after `user:join` with user id `u` from a live
connection `h` the registry maps `u` to `h` (whatever it held for `u` before) and
is unchanged for every other user id; the only event emitted is `users:online` to
`h`, and its list is the list of the user ids registered after the update, each
occurring once, `u` among them. -/
theorem C20_user_join_registers_and_lists (s : State) (hs : Reachable s) (now : Nat)
    (h : String) (u n : Val) (hl : isLive s h = true) :
    mapGet (step now s (.userJoin h u n)).1.userSockets u = some h ∧
    (∀ v, v ≠ u → mapGet (step now s (.userJoin h u n)).1.userSockets v
        = mapGet s.userSockets v) ∧
    (step now s (.userJoin h u n)).2
      = [(h, .usersOnline (mapKeys (step now s (.userJoin h u n)).1.userSockets))] ∧
    (mapKeys (step now s (.userJoin h u n)).1.userSockets).Nodup ∧
    u ∈ mapKeys (step now s (.userJoin h u n)).1.userSockets := by
  have hi2 : Inv2 (step now s (.userJoin h u n)).1 := inv2_step (reachable_inv2 hs) now _
  rw [step_userJoin_live hl] at hi2 ⊢
  have hl2 : isLive (userJoin s h u n).1 h = true := by rw [isLive_userJoin]; exact hl
  refine ⟨userJoin_registry s h u n, ?_, ?_, hi2.registryNodup, ?_⟩
  · intro v hv
    simp only [userJoin, updSocket]
    exact mapGet_mapSet_of_ne _ _ hv
  · have : (userJoin s h u n).2
        = socketEmit (userJoin s h u n).1 h (.usersOnline (mapKeys (userJoin s h u n).1.userSockets)) :=
      rfl
    rw [this, socketEmit_live hl2]
  · rw [← mapGet_isSome_iff, userJoin_registry]
    rfl

/-- C20 (witness): the statement for `b` registering user `x` after `a` did. -/
theorem C20_user_join_registers_and_lists_witness :
    isLive (run State.empty [(0, .connect "a"), (0, .connect "b"),
      (1, .userJoin "a" (.str "x") (.str "Xavier"))]).1 "b" = true ∧
    (step 2 (run State.empty [(0, .connect "a"), (0, .connect "b"),
      (1, .userJoin "a" (.str "x") (.str "Xavier"))]).1
      (.userJoin "b" (.str "x") (.str "Xavier"))).2 = [("b", .usersOnline [.str "x"])] := by
  have h := (C20_user_join_registers_and_lists
    (run State.empty [(0, .connect "a"), (0, .connect "b"),
      (1, .userJoin "a" (.str "x") (.str "Xavier"))]).1
    (reachable_run Reachable.empty _) 2 "b" (.str "x") (.str "Xavier") (by decide)).2.2.1
  exact ⟨by decide, h.trans (by decide)⟩

/-- C21: for every state, a `media:toggle` from connection `h` naming a room that is
not stored, or a stored room of which `h` is not a participant, leaves the whole
state (room store and registry included) unchanged and emits nothing: no
`media:toggled` and no `error`. -/
theorem C21_stale_media_toggle_is_noop (now : Nat) (s : State) (h : String)
    (roomId mediaType enabled : Val)
    (hstale : ∀ room, mapGet s.rooms roomId = some room → h ∉ mapKeys room.participants) :
    step now s (.mediaToggle h roomId mediaType enabled) = (s, []) := by
  cases hl : isLive s h with
  | false => exact step_mediaToggle_not_live hl now roomId mediaType enabled
  | true =>
    obtain ⟨c, _, hid, hst⟩ := step_mediaToggle_live hl now roomId mediaType enabled
    rw [hst]
    unfold mediaToggle
    split
    · rfl
    · rename_i room hg
      have hn := hstale room hg
      rw [← hid, ← mapGet_eq_none_iff] at hn
      simp [hn]

/-- C21 (witness): connection `b`, which is in no room, toggles its audio in `r1`. -/
theorem C21_stale_media_toggle_is_noop_witness :
    step 2 (run State.empty outsiderTrace).1
        (.mediaToggle "b" (.str "r1") (.str "audio") (.bool false))
      = ((run State.empty outsiderTrace).1, []) :=
  C21_stale_media_toggle_is_noop 2 (run State.empty outsiderTrace).1 "b" (.str "r1")
    (.str "audio") (.bool false) (by decide)

/-- C23: `a` joined `r1` with user id `u1` without ever sending `user:join`; when it
toggles its audio, the other member `b` receives `media:toggled` whose `userId` is
`undefined` (the unset `socket.userId`), not the `u1` stored in the participant
entry of `a`. -/
theorem C23_media_toggled_carries_socket_userId :
    (step 3 (run State.empty unregisteredPairTrace).1
        (.mediaToggle "a" (.str "r1") (.str "audio") (.bool false))).2
      = [("b", .mediaToggled .undef (.str "audio") (.bool false))] ∧
    ((getRoomDetails (run State.empty unregisteredPairTrace).1 (.str "r1")).map
        (fun d => d.participants.map (fun p => (p.socketId, p.userId))))
      = some [("a", .str "u1"), ("b", .str "u2")] := by
  decide

/-- C25: for every state and `roomId`, `getRoomDetails(roomId)` is `null` exactly
when `roomId` is not a key of the room store; for a stored room it returns that
`roomId`, the room's `status` and `createdAt`, the list of exactly the room's
participant entries in order, and a `participantCount` equal to the length of that
list. -/
theorem C25_getRoomDetails_reflects_store (s : State) (roomId : Val) :
    (getRoomDetails s roomId = none ↔ roomId ∉ mapKeys s.rooms) ∧
    (∀ room, mapGet s.rooms roomId = some room →
      getRoomDetails s roomId
        = some { id := roomId, participants := mapValues room.participants,
                 participantCount := (mapValues room.participants).length,
                 status := room.status, createdAt := room.createdAt }) := by
  constructor
  · rw [← mapGet_eq_none_iff]
    unfold getRoomDetails
    cases mapGet s.rooms roomId <;> simp
  · intro room hg
    simp [getRoomDetails, hg, mapValues]

/-- C26: for every state, `webrtc:offer`, `webrtc:answer`, `webrtc:ice-candidate` and
`chat:message` leave the whole state (room store, registry, connections) exactly
as it was, whatever the target or room is; each is one `io.to(..).emit`, so every
delivery of the step carries one and the same event. -/
theorem C26_relay_events_keep_the_state (now : Nat) (s : State) (h : String)
    (payload roomId target message senderName : Val) :
    (step now s (.webrtcOffer h payload roomId target)).1 = s ∧
    (step now s (.webrtcAnswer h payload target)).1 = s ∧
    (step now s (.webrtcIceCandidate h payload target)).1 = s ∧
    (step now s (.chatMessage h roomId message senderName)).1 = s ∧
    (∀ c, findSocket s h = some c →
      (step now s (.webrtcOffer h payload roomId target)).2
        = (inRoom s target).map (fun k => (k, Msg.webrtcOffer payload c.id c.userId c.userName)) ∧
      (step now s (.webrtcAnswer h payload target)).2
        = (inRoom s target).map (fun k => (k, Msg.webrtcAnswer payload c.id)) ∧
      (step now s (.webrtcIceCandidate h payload target)).2
        = (inRoom s target).map (fun k => (k, Msg.webrtcIceCandidate payload c.id)) ∧
      (step now s (.chatMessage h roomId message senderName)).2
        = (inRoom s roomId).map (fun k => (k, Msg.chatMessage message senderName c.userId now))) := by
  cases hc : findSocket s h with
  | none =>
    simp [step, onSocket, hc]
  | some c =>
    simp [step, onSocket, hc, webrtcOffer, webrtcAnswer, webrtcIceCandidate, chatMessage, ioTo]

/-- C29: in every reachable state, every entry of every stored room's participants
map is keyed by its own `socketId`, and that key is the handle of a live connection
that is not recorded as disconnected. -/
theorem C29_participants_are_live_connections (s : State) (hs : Reachable s) :
    ∀ e ∈ s.rooms, ∀ x ∈ e.2.participants,
      x.2.socketId = x.1 ∧ isLive s x.1 = true ∧ x.1 ∉ s.closed := by
  have hi := reachable_inv hs
  have hi2 := reachable_inv2 hs
  intro e he x hx
  have hg := (mem_rooms_iff hi e).mp he
  have hlive : x.1 ∈ socketIds s :=
    (hi.rooms.2 e.1 e.2 hg).2 x.1 (List.mem_map.mpr ⟨x, hx, rfl⟩)
  exact ⟨(hi2.roomOk e.1 e.2 hg).1 x hx, (isLive_iff s x.1).mpr hlive,
    hi.liveNotClosed x.1 hlive⟩

/-- C29 (witness): the statement at the state where `a` and `b` are both in `r1`. -/
theorem C29_participants_are_live_connections_witness :
    Reachable (run State.empty twoDevicesTrace).1 ∧
    ∀ e ∈ (run State.empty twoDevicesTrace).1.rooms, ∀ x ∈ e.2.participants,
      x.2.socketId = x.1 ∧ isLive (run State.empty twoDevicesTrace).1 x.1 = true ∧
        x.1 ∉ (run State.empty twoDevicesTrace).1.closed :=
  ⟨reachable_run Reachable.empty twoDevicesTrace,
   C29_participants_are_live_connections (run State.empty twoDevicesTrace).1
     (reachable_run Reachable.empty twoDevicesTrace)⟩

/-- C30: after connection `a` registered user ids `x` and then `y` and
disconnected, the registry still maps `x` to the closed handle `a`; and after `a`
registered the falsy user id `0` and disconnected, the registry still maps `0` to
the closed handle `a`. -/
theorem C30_registry_keeps_closed_handle :
    (run State.empty twoIdsThenCloseTrace).1.userSockets = [(.str "x", "a")] ∧
    (run State.empty twoIdsThenCloseTrace).1.closed = ["a"] ∧
    (run State.empty falsyIdThenCloseTrace).1.userSockets = [(.num 0, "a")] ∧
    (run State.empty falsyIdThenCloseTrace).1.closed = ["a"] := by
  decide

/-- C22: for every state in which the live connection `h` is a participant of room
`r`, and every string `m`, a `media:toggle` with media type `m` and value `e` sets
the property `m ++ "Enabled"` of the entry of `h` to `e` and changes nothing else:
the other properties and the `userId`, `userName`, `isDoctor`, `socketId` and
`joinedAt` of that entry, every other participant entry, the participant keys and
count, the `id`, `status` and `createdAt` of `r`, every other room, the registry
and the connections are as before. -/
theorem C22_media_toggle_changes_one_flag (now : Nat) (s : State) (h : String) (r : Val)
    (m : String) (e : Val) (room : Room) (p : Participant) (hl : isLive s h = true)
    (hg : mapGet s.rooms r = some room) (hp : mapGet room.participants h = some p) :
    ∃ room1 p1,
      mapGet (step now s (.mediaToggle h r (.str m) e)).1.rooms r = some room1 ∧
      mapGet room1.participants h = some p1 ∧
      mapGet p1.props (m ++ "Enabled") = some e ∧
      (∀ key, key ≠ m ++ "Enabled" → mapGet p1.props key = mapGet p.props key) ∧
      p1.userId = p.userId ∧ p1.userName = p.userName ∧ p1.isDoctor = p.isDoctor ∧
      p1.socketId = p.socketId ∧ p1.joinedAt = p.joinedAt ∧
      (∀ k, k ≠ h → mapGet room1.participants k = mapGet room.participants k) ∧
      mapKeys room1.participants = mapKeys room.participants ∧
      room1.participants.length = room.participants.length ∧
      room1.id = room.id ∧ room1.status = room.status ∧ room1.createdAt = room.createdAt ∧
      (∀ r2, r2 ≠ r → mapGet (step now s (.mediaToggle h r (.str m) e)).1.rooms r2
          = mapGet s.rooms r2) ∧
      mapKeys (step now s (.mediaToggle h r (.str m) e)).1.rooms = mapKeys s.rooms ∧
      (step now s (.mediaToggle h r (.str m) e)).1.userSockets = s.userSockets ∧
      (step now s (.mediaToggle h r (.str m) e)).1.sockets = s.sockets ∧
      (step now s (.mediaToggle h r (.str m) e)).1.closed = s.closed := by
  obtain ⟨c, _, hid, hst⟩ := step_mediaToggle_live hl now r (.str m) e
  have hin : h ∈ mapKeys room.participants := by
    rw [← mapGet_isSome_iff, hp]; rfl
  have hrin : r ∈ mapKeys s.rooms := by
    rw [← mapGet_isSome_iff, hg]; rfl
  have hstate : (mediaToggle s c r (.str m) e).1 =
      { s with
        rooms := mapSet s.rooms r
          { room with
            participants := mapSet room.participants h
              { p with props := mapSet p.props (m ++ "Enabled") e } } } := by
    unfold mediaToggle
    simp only [hg, hid, hp, Val.toJsString]
  rw [hst, hstate]
  refine ⟨_, _, mapGet_mapSet_self _ _ _, mapGet_mapSet_self _ _ _, mapGet_mapSet_self _ _ _,
    ?_, rfl, rfl, rfl, rfl, rfl, ?_, ?_, ?_, rfl, rfl, rfl, ?_, ?_, rfl, rfl, rfl⟩
  · intro key hkey
    exact mapGet_mapSet_of_ne _ _ hkey
  · intro k hk
    exact mapGet_mapSet_of_ne _ _ hk
  · exact mapKeys_mapSet_of_mem _ hin
  · simp only [length_mapSet, hin, if_true]
  · intro r2 hr2
    exact mapGet_mapSet_of_ne _ _ hr2
  · exact mapKeys_mapSet_of_mem _ hrin

/-- C22 (witness): connection `a`, a participant of `r1`, switches its audio off. -/
theorem C22_media_toggle_changes_one_flag_witness :
    isLive (run State.empty unregisteredPairTrace).1 "a" = true ∧
    ∃ room1 p1,
      mapGet (step 3 (run State.empty unregisteredPairTrace).1
          (.mediaToggle "a" (.str "r1") (.str "audio") (.bool false))).1.rooms (.str "r1")
        = some room1 ∧
      mapGet room1.participants "a" = some p1 ∧
      mapGet p1.props ("audio" ++ "Enabled") = some (.bool false) := by
  obtain ⟨room1, p1, h1, h2, h3, _⟩ := C22_media_toggle_changes_one_flag 3
    (run State.empty unregisteredPairTrace).1 "a" (.str "r1") "audio" (.bool false)
    ((mapGet (run State.empty unregisteredPairTrace).1.rooms (.str "r1")).getD (newRoom .undef 0))
    { userId := .str "u1", userName := .str "Ann", isDoctor := .bool false, socketId := "a",
      joinedAt := 1, props := [] }
    (by decide) (by decide) (by decide)
  exact ⟨by decide, room1, p1, h1, h2, h3⟩

/-- C28: in every state reached by socket events only (no call of
`disconnectUserFromRoom`), every stored room has at least one participant, and its
status is `active` exactly when it has two or more participants and `waiting`
exactly when it has one. -/
theorem C28_socket_events_keep_rooms_consistent (s : State) (hs : SocketReachable s) :
    ∀ e ∈ s.rooms,
      e.2.participants.length ≥ 1 ∧
      (e.2.status = "active" ↔ e.2.participants.length ≥ 2) ∧
      (e.2.status = "waiting" ↔ e.2.participants.length = 1) := by
  intro e he
  have hi := reachable_inv (socketReachable_reachable hs)
  have hok := socketReachable_roomStatus hs e.1 e.2 ((mem_rooms_iff hi e).mp he)
  obtain ⟨hpos, hst⟩ := hok
  refine ⟨hpos, ?_, ?_⟩
  · rw [hst]
    by_cases h2 : e.2.participants.length ≥ 2
    · simp [h2]
    · simp only [h2, if_false, iff_false]
      decide
  · rw [hst]
    by_cases h2 : e.2.participants.length ≥ 2
    · simp only [h2, if_true]
      constructor
      · intro hcontra
        exact absurd hcontra (by decide)
      · intro h1
        omega
    · simp only [h2, if_false, true_iff]
      omega

/-- C28 (witness): the statement after `a` and `b` joined `r1` and `a` left. -/
theorem C28_socket_events_keep_rooms_consistent_witness :
    SocketReachable (run State.empty joinJoinLeaveTrace).1 ∧
    ∀ e ∈ (run State.empty joinJoinLeaveTrace).1.rooms,
      e.2.participants.length ≥ 1 ∧
      (e.2.status = "active" ↔ e.2.participants.length ≥ 2) ∧
      (e.2.status = "waiting" ↔ e.2.participants.length = 1) :=
  ⟨socketReachable_run SocketReachable.empty joinJoinLeaveTrace (by decide),
   C28_socket_events_keep_rooms_consistent (run State.empty joinJoinLeaveTrace).1
     (socketReachable_run SocketReachable.empty joinJoinLeaveTrace (by decide))⟩

/-- C24 (counterexample): after `a` joined `r1`, its participant entry has no
property at all, so `audioEnabled` and `videoEnabled` are unset rather than `true`. -/
theorem C24_new_entry_has_no_media_flags :
    entryOf (run State.empty outsiderTrace).1 (.str "r1") "a"
      = some { userId := .str "u1", userName := .str "Ann", isDoctor := .bool false,
               socketId := "a", joinedAt := 1, props := [] } ∧
    flagOf (run State.empty outsiderTrace).1 (.str "r1") "a" "audioEnabled" ≠ some (.bool true) ∧
    flagOf (run State.empty outsiderTrace).1 (.str "r1") "a" "videoEnabled" ≠ some (.bool true) := by
  decide

/-- C24 (amended): the participant entry a `room:join` creates for the joiner has no
property beyond the five written by the handler, so `audioEnabled` and
`videoEnabled` are unset (read as `undefined`); and for `t` one of `audio` and
`video`, the flag `t ++ "Enabled"` of the entry of `h` in `r`, when unset, stays
unset across every transition other than a `media:toggle` of `h` on `r` whose
media type is the string `t`. -/
theorem C24_media_flags_unset_until_toggled (now : Nat) (s : State) (ev : Event) (r : Val)
    (h t : String) (ht : t = "audio" ∨ t = "video") :
    (∀ u n d, isLive s h = true →
      ∃ p, entryOf (step now s (.roomJoin h r u n d)).1 r h = some p ∧ p.props = [] ∧
        flagOf (step now s (.roomJoin h r u n d)).1 r h (t ++ "Enabled") = none) ∧
    (flagOf s r h (t ++ "Enabled") = none →
      flagOf (step now s ev).1 r h (t ++ "Enabled") = none ∨
      ∃ e, ev = .mediaToggle h r (.str t) e) := by
  constructor
  · intro u n d hl
    have hent : entryOf (step now s (.roomJoin h r u n d)).1 r h
        = some { userId := u, userName := n, isDoctor := d, socketId := h, joinedAt := now,
                 props := [] } := by
      rw [step_roomJoin_live hl]
      simp only [entryOf, roomJoin_get_self, Option.some_bind, joinedRoom, mapGet_mapSet_self]
    refine ⟨_, hent, rfl, ?_⟩
    simp only [flagOf, hent, Option.some_bind, mapGet]
  · intro hunset
    cases hent : entryOf (step now s ev).1 r h with
    | none =>
      left
      simp only [flagOf, hent, Option.none_bind]
    | some p1 =>
      rcases entryOf_step now s ev r h p1 hent with h1 | h1 | ⟨p, m, e, hev, hp, hp1⟩
      · left
        simp only [flagOf, h1, Option.some_bind] at hunset
        simp only [flagOf, hent, Option.some_bind]
        exact hunset
      · left
        simp only [flagOf, hent, Option.some_bind, h1, mapGet]
      · by_cases hkey : m.toJsString = t
        · right
          rw [toJsString_eq_media ht hkey] at hev
          exact ⟨e, hev⟩
        · left
          simp only [flagOf, hp, Option.some_bind] at hunset
          simp only [flagOf, hent, Option.some_bind, hp1]
          rw [mapGet_mapSet_of_ne]
          · exact hunset
          · intro heq
            exact hkey (string_append_right_cancel heq).symm

/-- C24 (witness): after `a` joined `r1`, a `media:toggle` of `a` on `r1` for `video`
leaves `audioEnabled` unset. -/
theorem C24_media_flags_unset_until_toggled_witness :
    flagOf (run State.empty outsiderTrace).1 (.str "r1") "a" ("audio" ++ "Enabled") = none ∧
    flagOf (step 2 (run State.empty outsiderTrace).1
        (.mediaToggle "a" (.str "r1") (.str "video") (.bool false))).1 (.str "r1") "a"
        ("audio" ++ "Enabled") = none := by
  refine ⟨by decide, ?_⟩
  rcases (C24_media_flags_unset_until_toggled 2 (run State.empty outsiderTrace).1
    (.mediaToggle "a" (.str "r1") (.str "video") (.bool false)) (.str "r1") "a" "audio"
    (Or.inl rfl)).2 (by decide) with h1 | ⟨e, hev⟩
  · exact h1
  · injection hev with _ _ hm _
    exact absurd hm (by decide)

end WebRTC
